import Mathlib

/-!
Verification development for the certificate-generator template rendering
pipeline (`src/lib/templateDocxRenderer.ts`) and the template-upload
placeholder discovery (`src/pages/TemplateMapping.tsx`).

Strings are modelled as `List Char` (the inputs are ASCII XML text).  The
JavaScript `String.replace(regex, replacement)` calls of the source are
embedded through a small backtracking matcher (`rxm`) over token lists that
mirror each concrete regular expression of the source: literals, greedy and
lazy character-class repetitions with capture groups, and the non-capturing
tag group `(?:<[^>]+>)*`.  The matcher tries alternatives in exactly the
order a JavaScript regex engine does (leftmost position first; greedy
repetitions longest-first, lazy repetitions shortest-first), which for these
patterns determines the same matches and captures.
-/

set_option autoImplicit false

set_option maxRecDepth 8192

def sl (s : String) : List Char := s.toList

def obr : Char := '\x7b'

def cbr : Char := '\x7d'

/-- JavaScript `\s` on the ASCII range. -/
def isWsChar (c : Char) : Bool :=
  c = ' ' || c = '\t' || c = '\n' || c = '\r' || c = '\x0b' || c = '\x0c'

/-- Class `[^>]` -/
def notGt (c : Char) : Bool := c != '>'

/-- Class `[^<]` -/
def notLt (c : Char) : Bool := c != '<'

/-- Class `[^}]` -/
def notCbr (c : Char) : Bool := c != cbr

/-- Class `[A-Za-z]` -/
def isAlphaChar (c : Char) : Bool :=
  ('A' ≤ c && c ≤ 'Z') || ('a' ≤ c && c ≤ 'z')

/-- Class `[A-Za-z0-9_]` (placeholder identifier characters). -/
def isIdentChar (c : Char) : Bool :=
  isAlphaChar c || ('0' ≤ c && c ≤ '9') || c = '_'

/-- Class `[\sS]` (the paragraph-fallback pattern is built from a string literal in
which `\S` is an unrecognised escape, so the class is whitespace-or-S). -/
def isWsOrS (c : Char) : Bool := isWsChar c || c = 'S'

/-- Class `[_ ]` -/
def isUndSp (c : Char) : Bool := c = '_' || c = ' '

/-- Strip a literal prefix: `stripPre p s = some r` iff `s = p ++ r`. -/
def stripPre : List Char → List Char → Option (List Char)
  | [], s => some s
  | _ :: _, [] => none
  | c :: cs, d :: s => if c = d then stripPre cs s else none

/-- JavaScript `s.includes(p)`: `p` occurs as a contiguous substring. -/
def containsSub (p : List Char) : List Char → Bool
  | [] => (stripPre p []).isSome
  | c :: s => (stripPre p (c :: s)).isSome || containsSub p s

/-- Split at the first occurrence of `p`: `some (pre, post)` with the input
equal to `pre ++ p ++ post`, `pre` containing no earlier occurrence. -/
def splitFirst (p : List Char) : List Char → Option (List Char × List Char)
  | [] => match stripPre p [] with
          | some r => some ([], r)
          | none => none
  | c :: s => match stripPre p (c :: s) with
          | some r => some ([], r)
          | none => (splitFirst p s).map (fun q => (c :: q.1, q.2))

/-- JavaScript `String.replace` with a plain string pattern: replace the
first occurrence only (a no-op when there is none). -/
def replaceFirstLit (p rep s : List Char) : List Char :=
  match splitFirst p s with
  | none => s
  | some (a, b) => a ++ rep ++ b

def countLeading (p : Char → Bool) : List Char → Nat
  | [] => 0
  | c :: s => if p c then countLeading p s + 1 else 0

/-- Tokens of the concrete regular expressions used by the renderer. -/
inductive RTok where
  | lit (cs : List Char)
  | cls (p : Char → Bool) (mn : Nat) (lzy : Bool) (cap : Bool)
  | opt (p : Char → Bool)
  | one (p : Char → Bool)
  | tagSeq

/-- Try `g` on `k, k-1, ..., mn` (greedy repetition order). -/
def tryDesc {A : Type} (g : Nat → Option A) (mn : Nat) : Nat → Option A
  | 0 => if mn = 0 then g 0 else none
  | k + 1 => if k + 1 < mn then none else
      match g (k + 1) with
      | some r => some r
      | none => tryDesc g mn k

/-- Try `g` on `k, k+1, ..., k+f` (lazy repetition order). -/
def tryAscAux {A : Type} (g : Nat → Option A) : Nat → Nat → Option A
  | 0, k => g k
  | f + 1, k =>
      match g k with
      | some r => some r
      | none => tryAscAux g f (k + 1)

def tryAsc {A : Type} (g : Nat → Option A) (mn hi : Nat) : Option A :=
  if mn ≤ hi then tryAscAux g (hi - mn) mn else none

/-- One step of `(?:<[^>]+>)` : a full tag `<…>` with nonempty body. -/
def parseTag : List Char → Option (Nat × List Char)
  | [] => none
  | c :: r =>
      if c = '<' then
        let m := countLeading notGt r
        if m ≥ 1 then
          match r.drop m with
          | '>' :: rest => some (m + 2, rest)
          | _ => none
        else none
      else none

/-- Cumulative lengths consumable by `(?:<[^>]+>)*`, ascending from 0. -/
def tagCums : Nat → List Char → List Nat
  | 0, _ => [0]
  | f + 1, s =>
      match parseTag s with
      | none => [0]
      | some (n, rest) => 0 :: (tagCums f rest).map (· + n)

def firstSome {A : Type} (g : Nat → Option A) : List Nat → Option A
  | [] => none
  | k :: ks =>
      match g k with
      | some r => some r
      | none => firstSome g ks

/-- Backtracking matcher: `rxm pat s = some (n, caps)` when the pattern
matches a prefix of `s` of length `n` with capture groups `caps` (in order).
Alternatives are tried in JavaScript order. -/
def rxm : List RTok → List Char → Option (Nat × List (List Char))
  | [], _ => some (0, [])
  | .lit cs :: ts, s =>
      match stripPre cs s with
      | none => none
      | some r => (rxm ts r).map (fun x => (x.1 + cs.length, x.2))
  | .one _ :: _, [] => none
  | .one p :: ts, c :: s =>
      if p c then (rxm ts s).map (fun x => (x.1 + 1, [c] :: x.2)) else none
  | .opt _ :: ts, [] => rxm ts []
  | .opt p :: ts, c :: s =>
      if p c then
        match (rxm ts s).map (fun x => (x.1 + 1, x.2)) with
        | some r => some r
        | none => rxm ts (c :: s)
      else rxm ts (c :: s)
  | .cls p mn lzy cap :: ts, s =>
      let g := fun k => (rxm ts (s.drop k)).map
        (fun x => (x.1 + k, if cap then s.take k :: x.2 else x.2))
      if lzy then tryAsc g mn (countLeading p s)
      else tryDesc g mn (countLeading p s)
  | .tagSeq :: ts, s =>
      let g := fun k => (rxm ts (s.drop k)).map (fun x => (x.1 + k, x.2))
      firstSome g ((tagCums (s.length + 1) s).reverse)

/-- Pieces of a replacement string: literal text and `$i` group references. -/
inductive RPiece where
  | lit (cs : List Char)
  | grp (i : Nat)

def buildRep (ps : List RPiece) (caps : List (List Char)) : List Char :=
  match ps with
  | [] => []
  | .lit cs :: rest => cs ++ buildRep rest caps
  | .grp i :: rest => (caps.getD (i - 1) []) ++ buildRep rest caps

/-- Global regex replace (`String.replace` with the `g` flag): scan left to
right, replacing each non-overlapping match and continuing after it.  The
patterns used here never produce an empty match; an empty match is skipped. -/
def scanRep (m : List Char → Option (Nat × List (List Char)))
    (rep : List (List Char) → List Char) : Nat → List Char → List Char
  | 0, s => s
  | _ + 1, [] => []
  | f + 1, c :: s =>
      match m (c :: s) with
      | some (n, caps) =>
          if n = 0 then c :: scanRep m rep f s
          else rep caps ++ scanRep m rep f ((c :: s).drop n)
      | none => c :: scanRep m rep f s

def applyPat (pat : List RTok) (rp : List RPiece) (s : List Char) : List Char :=
  scanRep (rxm pat) (buildRep rp) (s.length + 1) s

/-! ## The ten cleanup passes (templateDocxRenderer.ts lines 23-82)

Shared fragments of the regular expressions: -/

/-- Fragment `<w:proofErr[^>]*>` -/
def reProofErr : List RTok := [.lit (sl "<w:proofErr"), .cls notGt 0 false false, .lit (sl ">")]

/-- Fragment `<w:r[^>]*>` -/
def reWr : List RTok := [.lit (sl "<w:r"), .cls notGt 0 false false, .lit (sl ">")]

/-- Fragment `<w:[^>]*>` -/
def reWAny : List RTok := [.lit (sl "<w:"), .cls notGt 0 false false, .lit (sl ">")]

/-- Fragment `<w:rPr[^>]*><\/w:rPr><w:t>` -/
def reRPrT : List RTok :=
  [.lit (sl "<w:rPr"), .cls notGt 0 false false, .lit (sl "></w:rPr><w:t>")]

/-- Fragment `<w:rPr[^>]*><\/w:rPr><w:t[^>]*>` -/
def reRPrTAttr : List RTok :=
  [.lit (sl "<w:rPr"), .cls notGt 0 false false, .lit (sl "></w:rPr><w:t"),
   .cls notGt 0 false false, .lit (sl ">")]

/-- Pass 1 pattern:
`\{\{<\/w:t><\/w:r><w:proofErr[^>]*><w:r[^>]*><w:rPr[^>]*><\/w:rPr><w:t>([^<]+)<\/w:t><\/w:r><w:proofErr[^>]*><w:r[^>]*><w:rPr[^>]*><\/w:rPr><w:t[^>]*>\}\}` -/
def pat1 : List RTok :=
  [.lit (sl "\x7b\x7b</w:t></w:r>")] ++ reProofErr ++ reWr ++ reRPrT ++
  [.cls notLt 1 false true, .lit (sl "</w:t></w:r>")] ++ reProofErr ++ reWr ++
  reRPrTAttr ++ [.lit (sl "\x7d\x7d")]

def rep1 : List RPiece := [.lit (sl "\x7b\x7b"), .grp 1, .lit (sl "\x7d\x7d")]

/-- Pass 2 pattern: as pass 1 with `<w:r[^>]*>` in place of the proofing tags. -/
def pat2 : List RTok :=
  [.lit (sl "\x7b\x7b</w:t></w:r>")] ++ reWr ++ reRPrT ++
  [.cls notLt 1 false true, .lit (sl "</w:t></w:r>")] ++ reWr ++
  reRPrTAttr ++ [.lit (sl "\x7d\x7d")]

/-- Pass 3 pattern:
`\{\{([A-Za-z])<\/w:t><\/w:r><w:r[^>]*><w:rPr[^>]*><\/w:rPr><w:t>([^<]+)<\/w:t><\/w:r><w:r[^>]*><w:rPr[^>]*><\/w:rPr><w:t>([^<]+)<\/w:t><\/w:r><w:r[^>]*><w:rPr[^>]*><\/w:rPr><w:t[^>]*>\}\}` -/
def pat3 : List RTok :=
  [.lit (sl "\x7b\x7b"), .one isAlphaChar, .lit (sl "</w:t></w:r>")] ++ reWr ++ reRPrT ++
  [.cls notLt 1 false true, .lit (sl "</w:t></w:r>")] ++ reWr ++ reRPrT ++
  [.cls notLt 1 false true, .lit (sl "</w:t></w:r>")] ++ reWr ++
  reRPrTAttr ++ [.lit (sl "\x7d\x7d")]

def rep3 : List RPiece :=
  [.lit (sl "\x7b\x7b"), .grp 1, .grp 2, .grp 3, .lit (sl "\x7d\x7d")]

/-- Pass 4 pattern:
`\{\{([^}]*?)<\/w:t><\/w:r><w:[^>]*><w:r[^>]*><w:rPr[^>]*><\/w:rPr><w:t>([^<]*?)<\/w:t><\/w:r><w:[^>]*><w:r[^>]*><w:rPr[^>]*><\/w:rPr><w:t[^>]*>\}\}` -/
def pat4 : List RTok :=
  [.lit (sl "\x7b\x7b"), .cls notCbr 0 true true, .lit (sl "</w:t></w:r>")] ++
  reWAny ++ reWr ++ reRPrT ++
  [.cls notLt 0 true true, .lit (sl "</w:t></w:r>")] ++ reWAny ++ reWr ++
  reRPrTAttr ++ [.lit (sl "\x7d\x7d")]

def rep4 : List RPiece := [.lit (sl "\x7b\x7b"), .grp 1, .grp 2, .lit (sl "\x7d\x7d")]

/-- Pass 5 pattern:
`\{\{([^}]+)\}\}<\/w:t><\/w:r><w:tab\/><w:r[^>]*><w:rPr[^>]*><\/w:rPr><w:t>\{\{([^}]+)\}\}` -/
def pat5 : List RTok :=
  [.lit (sl "\x7b\x7b"), .cls notCbr 1 false true,
   .lit (sl "\x7d\x7d</w:t></w:r><w:tab/>")] ++ reWr ++ reRPrT ++
  [.lit (sl "\x7b\x7b"), .cls notCbr 1 false true, .lit (sl "\x7d\x7d")]

def rep5 : List RPiece :=
  [.lit (sl "\x7b\x7b"), .grp 1, .lit (sl "\x7d\x7d \x7b\x7b"), .grp 2, .lit (sl "\x7d\x7d")]

/-- Pass 6 pattern: as pass 5 with `<w:[^>]*>` in place of the tab. -/
def pat6 : List RTok :=
  [.lit (sl "\x7b\x7b"), .cls notCbr 1 false true,
   .lit (sl "\x7d\x7d</w:t></w:r>")] ++ reWAny ++ reWr ++ reRPrT ++
  [.lit (sl "\x7b\x7b"), .cls notCbr 1 false true, .lit (sl "\x7d\x7d")]

/-- Pass 7 pattern:
`\{\{([^}]+)\}\}<\/w:t><\/w:r><w:[^>]*><w:r[^>]*><w:rPr[^>]*><\/w:rPr><w:t[^>]*>\s*\{\{([^}]+)\}\}` -/
def pat7 : List RTok :=
  [.lit (sl "\x7b\x7b"), .cls notCbr 1 false true,
   .lit (sl "\x7d\x7d</w:t></w:r>")] ++ reWAny ++ reWr ++ reRPrTAttr ++
  [.cls isWsChar 0 false false,
   .lit (sl "\x7b\x7b"), .cls notCbr 1 false true, .lit (sl "\x7d\x7d")]

/-- Pass 8 pattern: as pass 4 with `([^<]*?)` for the first capture. -/
def pat8 : List RTok :=
  [.lit (sl "\x7b\x7b"), .cls notLt 0 true true, .lit (sl "</w:t></w:r>")] ++
  reWAny ++ reWr ++ reRPrT ++
  [.cls notLt 0 true true, .lit (sl "</w:t></w:r>")] ++ reWAny ++ reWr ++
  reRPrTAttr ++ [.lit (sl "\x7d\x7d")]

/-- Pass 9 pattern: as pass 4 with `([^}]*?)` for the second capture. -/
def pat9 : List RTok :=
  [.lit (sl "\x7b\x7b"), .cls notCbr 0 true true, .lit (sl "</w:t></w:r>")] ++
  reWAny ++ reWr ++ reRPrT ++
  [.cls notCbr 0 true true, .lit (sl "</w:t></w:r>")] ++ reWAny ++ reWr ++
  reRPrTAttr ++ [.lit (sl "\x7d\x7d")]

/-- Pass 10 pattern: as pass 9 with `<w:t[^>]*>` opening the second fragment. -/
def pat10 : List RTok :=
  [.lit (sl "\x7b\x7b"), .cls notCbr 0 true true, .lit (sl "</w:t></w:r>")] ++
  reWAny ++ reWr ++ reRPrTAttr ++
  [.cls notCbr 0 true true, .lit (sl "</w:t></w:r>")] ++ reWAny ++ reWr ++
  reRPrTAttr ++ [.lit (sl "\x7d\x7d")]

/-- The ten `xmlContent.replace(...)` passes, in source order. -/
def cleanupBrokenPlaceholders (s : List Char) : List Char :=
  applyPat pat10 rep4 (applyPat pat9 rep4 (applyPat pat8 rep4
    (applyPat pat7 rep5 (applyPat pat6 rep5 (applyPat pat5 rep5
      (applyPat pat4 rep4 (applyPat pat3 rep3 (applyPat pat2 rep1
        (applyPat pat1 rep1 s)))))))))

/-! ## Marker pre-pass and QR injection (templateDocxRenderer.ts lines 89-254) -/

/-- The internal marker string `[[QR_INLINE_IMG]]`. -/
def qrMarker : List Char := sl "[[QR_INLINE_IMG]]"

/-- The bare marker text checked by `docXml.includes('QR_INLINE_IMG')`. -/
def qrCore : List Char := sl "QR_INLINE_IMG"

/-- Pattern `\{\{\s*QRCode\s*\}\}` (line 94). -/
def markerPat : List RTok :=
  [.lit (sl "\x7b\x7b"), .cls isWsChar 0 false false, .lit (sl "QRCode"),
   .cls isWsChar 0 false false, .lit (sl "\x7d\x7d")]

/-- Line 94: `xml.replace(/\{\{\s*QRCode\s*\}\}/g, '[[QR_INLINE_IMG]]')`. -/
def replaceQRCodeWithMarker (s : List Char) : List Char :=
  applyPat markerPat [.lit qrMarker] s

/-- Pattern `\[\[QR_INLINE_IMG\]\]` (line 181). -/
def plainMarkerPat : List RTok := [.lit qrMarker]

/-- Pattern `\[\[(?:<[^>]+>)*QR(?:<[^>]+>)*_(?:<[^>]+>)*INLINE(?:<[^>]+>)*_(?:<[^>]+>)*IMG(?:<[^>]+>)*\]\]`
(line 183). -/
def splitMarkerPat : List RTok :=
  [.lit (sl "[["), .tagSeq, .lit (sl "QR"), .tagSeq, .lit (sl "_"), .tagSeq,
   .lit (sl "INLINE"), .tagSeq, .lit (sl "_"), .tagSeq, .lit (sl "IMG"),
   .tagSeq, .lit (sl "]]")]

/-- Pattern `\[\[(?:<[^>]+>)*QR_INLINE_IMG(?:<[^>]+>)*\]\]` (line 186). -/
def genericSplitMarkerPat : List RTok :=
  [.lit (sl "[["), .tagSeq, .lit (sl "QR_INLINE_IMG"), .tagSeq, .lit (sl "]]")]

/-- The paragraph-fallback pattern of lines 192-195.  It is built from the
string literal `'<w:p[^>]*>[^<]*[\\s\S]*?QR[_ ]?INLINE[_ ]?IMG[\\s\S]*?<\\/w:p>'`,
in which `\S` is an unrecognised string escape and collapses to `S`, so the
regex actually compiled is `<w:p[^>]*>[^<]*[\sS]*?QR[_ ]?INLINE[_ ]?IMG[\sS]*?<\/w:p>`. -/
def paraFallbackPat : List RTok :=
  [.lit (sl "<w:p"), .cls notGt 0 false false, .lit (sl ">"),
   .cls notLt 0 false false, .cls isWsOrS 0 true false,
   .lit (sl "QR"), .opt isUndSp, .lit (sl "INLINE"), .opt isUndSp, .lit (sl "IMG"),
   .cls isWsOrS 0 true false, .lit (sl "</w:p>")]
/-- The inline drawing XML of lines 158-177, with `cx = cy = 25 * 36000 = 900000`
and the relationship id interpolated. -/
def drawingXml : List Char := sl "\n            <w:r><w:drawing><wp:inline xmlns:wp=\"http://schemas.openxmlformats.org/drawingml/2006/wordprocessingDrawing\" distT=\"0\" distB=\"0\" distL=\"0\" distR=\"0\">\n              <wp:extent cx=\"900000\" cy=\"900000\"/>\n              <wp:docPr id=\"1\" name=\"QRCode\"/>\n              <a:graphic xmlns:a=\"http://schemas.openxmlformats.org/drawingml/2006/main\">\n                <a:graphicData uri=\"http://schemas.openxmlformats.org/drawingml/2006/picture\">\n                  <pic:pic xmlns:pic=\"http://schemas.openxmlformats.org/drawingml/2006/picture\">\n                    <pic:nvPicPr><pic:cNvPr id=\"0\" name=\"qrcode.png\"/><pic:cNvPicPr/></pic:nvPicPr>\n                    <pic:blipFill>\n                      <a:blip r:embed=\"rIdQRCodeImage\" xmlns:r=\"http://schemas.openxmlformats.org/officeDocument/2006/relationships\"/>\n                      <a:stretch><a:fillRect/></a:stretch>\n                    </pic:blipFill>\n                    <pic:spPr>\n                      <a:xfrm><a:off x=\"0\" y=\"0\"/><a:ext cx=\"900000\" cy=\"900000\"/></a:xfrm>\n                      <a:prstGeom prst=\"rect\"><a:avLst/></a:prstGeom>\n                    </pic:spPr>\n                  </pic:pic>\n                </a:graphicData>\n              </a:graphic>\n            </wp:inline></w:drawing></w:r>"

/-- The page-anchored drawing XML of lines 213-243. -/
def anchorXml : List Char := sl "\n              <w:p>\n                <w:r>\n                  <w:drawing>\n                    <wp:anchor xmlns:wp=\"http://schemas.openxmlformats.org/drawingml/2006/wordprocessingDrawing\" simplePos=\"0\" relativeHeight=\"0\" behindDoc=\"0\" locked=\"0\" layoutInCell=\"1\" allowOverlap=\"1\">\n                      <wp:simplePos x=\"0\" y=\"0\"/>\n                      <wp:positionH relativeFrom=\"page\"><wp:align>left</wp:align></wp:positionH>\n                      <wp:positionV relativeFrom=\"page\"><wp:align>bottom</wp:align></wp:positionV>\n                      <wp:extent cx=\"900000\" cy=\"900000\"/>\n                      <wp:effectExtent l=\"0\" t=\"0\" r=\"0\" b=\"0\"/>\n                      <wp:wrapNone/>\n                      <wp:docPr id=\"2\" name=\"QRCodeAnchored\"/>\n                      <a:graphic xmlns:a=\"http://schemas.openxmlformats.org/drawingml/2006/main\">\n                        <a:graphicData uri=\"http://schemas.openxmlformats.org/drawingml/2006/picture\">\n                          <pic:pic xmlns:pic=\"http://schemas.openxmlformats.org/drawingml/2006/picture\">\n                            <pic:nvPicPr><pic:cNvPr id=\"1\" name=\"qrcode.png\"/><pic:cNvPicPr/></pic:nvPicPr>\n                            <pic:blipFill>\n                              <a:blip r:embed=\"rIdQRCodeImage\" xmlns:r=\"http://schemas.openxmlformats.org/officeDocument/2006/relationships\"/>\n                              <a:stretch><a:fillRect/></a:stretch>\n                            </pic:blipFill>\n                            <pic:spPr>\n                              <a:xfrm><a:off x=\"0\" y=\"0\"/><a:ext cx=\"900000\" cy=\"900000\"/></a:xfrm>\n                              <a:prstGeom prst=\"rect\"><a:avLst/></a:prstGeom>\n                            </pic:spPr>\n                          </pic:pic>\n                        </a:graphicData>\n                      </a:graphic>\n                    </wp:anchor>\n                  </w:drawing>\n                </w:r>\n              </w:p>"

/-- The relationship entry of line 145. -/
def relTag : List Char := sl "\n    <Relationship Id=\"rIdQRCodeImage\" Type=\"http://schemas.openxmlformats.org/officeDocument/2006/relationships/image\" Target=\"media/qrcode.png\"/>"

/-- Definition `wrappedDrawing` of line 196: `<w:p><w:r>${drawingXml}</w:r></w:p>`. -/
def wrappedDrawing : List Char := sl "<w:p><w:r>" ++ drawingXml ++ sl "</w:r></w:p>"

/-! ## Archive model and the renderer pipeline -/

/-- A decompressed archive: a map from part path to (text) content.  This is
the in-memory state a `PizZip` instance holds during one render call. -/
structure PizZip where
  files : List (String × List Char)
deriving DecidableEq

def zfile (z : PizZip) (p : String) : Option (List Char) :=
  match z.files.find? (fun q => q.1 = p) with
  | some q => some q.2
  | none => none

def zsetFiles (p : String) (c : List Char) : List (String × List Char) → List (String × List Char)
  | [] => [(p, c)]
  | q :: fs => if q.1 = p then (p, c) :: fs else q :: zsetFiles p c fs

/-- Operation `zip.file(path, content)`: overwrite in place, or append a new entry. -/
def zset (z : PizZip) (p : String) (c : List Char) : PizZip :=
  ⟨zsetFiles p c z.files⟩

def docPath : String := "word/document.xml"

def relsPath : String := "word/_rels/document.xml.rels"

def mediaPath : String := "word/media/qrcode.png"

/-- Modelled from the spec (§6, §7): the input binary either decompresses to
an archive of parts or fails to parse; `new PizZip(buffer)` throws on a
corrupt buffer.  The binary-format decoding itself is outside the model. -/
inductive TemplateBinary where
  | valid (z : PizZip)
  | corrupt
deriving DecidableEq

/-- Errors surfaced to the caller of the renderer (spec §4.3/§7 calls these
`TemplateRenderError`; in the source they are the exceptions thrown by
`new PizZip`, the `Docxtemplater` constructor, and the rethrow at line 126). -/
inductive EngineError where
  | unclosedTag
deriving DecidableEq

inductive TemplateRenderError where
  | parseFailure
  | missingBodyPart
  | engineError (e : EngineError)
deriving DecidableEq

/-- Modelled from the spec: `new PizZip(templateArrayBuffer)` (line 14)
throws on a binary that is not a valid archive. -/
def pizzipLoad : TemplateBinary → Except TemplateRenderError PizZip
  | .valid z => .ok z
  | .corrupt => .error .parseFailure

/-- The render context of lines 6-10; `data` is the flat value mapping and
`qrCodeDataUrl` the optional `data:image/png;base64,...` payload. -/
structure RenderContext where
  templateArrayBuffer : TemplateBinary
  data : List (List Char × List Char)
  qrCodeDataUrl : Option (List Char)

/-- Line 105-108: `{...data, QRCode: qrCodeDataUrl || ''}` — the `QRCode`
key is always (re)bound, overriding any `QRCode` entry of `data`. -/
def enrich (data : List (List Char × List Char)) (qr : Option (List Char))
    (k : List Char) : Option (List Char) :=
  if k = sl "QRCode" then some (qr.getD [])
  else match data.find? (fun q => q.1 = k) with
       | some q => some q.2
       | none => none

/-- Modelled from the spec (§4.3 step 3, §4.2 end, §7): the docxtemplater
substitution engine with delimiters `{{`/`}}`.  A well-formed tag
`{{name}}` (identifier characters) is replaced by its mapped value; a tag
whose name is absent from the mapping is left as literal unresolved text
(non-fatal); a `{{` that is never closed by `}}` is an unrecoverable
template syntax error.  Values are inserted verbatim and never re-scanned. -/
def renderTags (lk : List Char → Option (List Char)) : Nat → List Char → Except EngineError (List Char)
  | 0, s => .ok s
  | _ + 1, [] => .ok []
  | f + 1, c :: s =>
      if c = obr ∧ s.head? = some obr then
        -- the scanner sits on a `{{`; `s.tail` is the text after it
        let r := s.tail
        let nm := r.takeWhile isIdentChar
        let aft := r.drop nm.length
        if nm ≠ [] ∧ (stripPre (sl "\x7d\x7d") aft).isSome then
          let emit := match lk nm with
            | some v => v
            | none => sl "\x7b\x7b" ++ nm ++ sl "\x7d\x7d"
          (emit ++ ·) <$> renderTags lk f (aft.drop 2)
        else if containsSub (sl "\x7d\x7d") r then
          -- malformed pair: left as literal text, rescan after the first `{`
          (obr :: ·) <$> renderTags lk f s
        else .error .unclosedTag
      else (c :: ·) <$> renderTags lk f s

/-- Modelled from the spec (§6) and PizZip: `qrCodeDataUrl.split(',')[1]`
takes the segment between the first and second comma, and
`zip.file(path, data, {base64: true})` decodes it, throwing on data that is
not base64 text (the decode happens before the entry is stored). -/
def decodeDataUrl (q : List Char) : Option (List Char) :=
  match splitFirst (sl ",") q with
  | none => none
  | some (_, rest) =>
      let payload := rest.takeWhile (fun c => c ≠ ',')
      if payload.all (fun c => isIdentChar c || c = '+' || c = '/' || c = '=') then
        some payload
      else none

/-- Lines 179-247: the marker-replacement chain over the body XML — the
plain marker, the split-marker patterns, the paragraph-level fallback when
bare marker text is still found, and finally the page-anchored drawing
appended before `</w:body>` when marker text remains. -/
def injectDocXml (docXml0 : List Char) : List Char :=
  let d1 := applyPat plainMarkerPat [.lit drawingXml] docXml0
  let d2 := applyPat splitMarkerPat [.lit drawingXml] d1
  let d3 := applyPat genericSplitMarkerPat [.lit drawingXml] d2
  let d4 := if containsSub qrCore d3 then applyPat paraFallbackPat [.lit wrappedDrawing] d3 else d3
  let stillA := if containsSub qrCore d3 then containsSub qrCore d4 else false
  let still := if containsSub qrCore d4 || containsSub qrMarker d4 then true else stillA
  if still then replaceFirstLit (sl "</w:body>") (anchorXml ++ sl "</w:body>") d4 else d4

/-- Lines 131-250: decode the payload, add the media asset, register the
relationship (guarded against a duplicate id), then rewrite the body XML
with `injectDocXml`.  An exception anywhere inside (modelled: the base64
decode, which precedes every mutation) is caught by the caller. -/
def injectQRImage (z : PizZip) (q : List Char) : Except Unit PizZip :=
  match decodeDataUrl q with
  | none => .error ()
  | some payload =>
    let z1 := zset z mediaPath payload
    match zfile z1 relsPath with
    | none => .ok z1
    | some relsXml =>
      let z2 := if containsSub (sl "rIdQRCodeImage") relsXml then z1
                else zset z1 relsPath
                  (replaceFirstLit (sl "</Relationships>") (relTag ++ sl "\n</Relationships>") relsXml)
      match zfile z2 docPath with
      | none => .ok z2
      | some docXml0 => .ok (zset z2 docPath (injectDocXml docXml0))

/-- The text stages of `renderDocxTemplate` (lines 12-128): archive parse,
the cleanup passes, the `{{QRCode}}`→marker pre-pass, and the substitution
engine run, with the substituted body written back into the archive. -/
def textSubstitutedZip (ctx : RenderContext) : Except TemplateRenderError PizZip :=
  match pizzipLoad ctx.templateArrayBuffer with
  | .error e => .error e
  | .ok zip0 =>
    -- lines 17-87: clean up broken placeholders when the body part exists
    let zip1 := match zfile zip0 docPath with
      | some xml => zset zip0 docPath (cleanupBrokenPlaceholders xml)
      | none => zip0
    -- lines 90-96: replace {{QRCode}} by the internal marker
    let zip2 := match zfile zip1 docPath with
      | some xml => zset zip1 docPath (replaceQRCodeWithMarker xml)
      | none => zip1
    -- line 98: the Docxtemplater constructor requires the body part
    match zfile zip2 docPath with
    | none => .error .missingBodyPart
    | some body =>
      -- lines 104-127: setData(enriched); doc.render() — errors are rethrown
      match renderTags (enrich ctx.data ctx.qrCodeDataUrl) (body.length + 1) body with
      | .error e => .error (.engineError e)
      | .ok body2 => .ok (zset zip2 docPath body2)

/-- Function `renderDocxTemplate` (lines 12-259): the text stages followed by the
guarded QR-image injection (lines 130-254), whose exceptions are caught and
ignored.  The final `doc.getZip().generate({type: 'blob'})` serialization is
modelled as the identity on the archive state, so the returned value is the
output archive. -/
def renderDocxTemplate (ctx : RenderContext) : Except TemplateRenderError PizZip :=
  match textSubstitutedZip ctx with
  | .error e => .error e
  | .ok zip3 =>
    let zip4 := match ctx.qrCodeDataUrl with
      | some q =>
          if (stripPre (sl "data:image") q).isSome then
            match injectQRImage zip3 q with
            | .ok z => z
            | .error _ => zip3
          else zip3
      | none => zip3
    .ok zip4

/-! ## Placeholder discovery at template upload (TemplateMapping.tsx) -/

/-- Pattern `\{\{\s*([A-Za-z0-9_]+)\s*\}\}` (line 86). -/
def extractorPat : List RTok :=
  [.lit (sl "\x7b\x7b"), .cls isWsChar 0 false false, .cls isIdentChar 1 false true,
   .cls isWsChar 0 false false, .lit (sl "\x7d\x7d")]

/-- Collect the capture lists of the successive non-overlapping matches
(the `while ((match = regex.exec(xml)) !== null)` loop of lines 87-90). -/
def scanCaps (m : List Char → Option (Nat × List (List Char))) : Nat → List Char → List (List (List Char))
  | 0, _ => []
  | _ + 1, [] => []
  | f + 1, c :: s =>
      match m (c :: s) with
      | some (n, caps) =>
          if n = 0 then scanCaps m f s
          else caps :: scanCaps m f ((c :: s).drop n)
      | none => scanCaps m f s

/-- JavaScript `Set` insertion order: keep the first occurrence of each
element. -/
def dedupAux (seen : List String) : List String → List String
  | [] => []
  | x :: xs => if seen.contains x then dedupAux seen xs
               else x :: dedupAux (x :: seen) xs

def dedupKeepFirst (l : List String) : List String := dedupAux [] l

/-- Lines 84-91: the de-duplicated placeholder names found in the body XML. -/
def extractPlaceholderNames (xml : List Char) : List String :=
  dedupKeepFirst
    ((scanCaps (rxm extractorPat) (xml.length + 1) xml).map (fun caps => String.mk (caps.getD 0 [])))

/-- Lines 50-71: the fixed built-in list of standard placeholder names. -/
def standardPlaceholders : List String :=
  ["Name", "DOB", "CertificateNo", "RegistrationNo", "Level", "CandidateId",
   "IssueDate", "Grade", "AadharNo", "EnrollmentNo", "SonOrDaughterOf",
   "JobRole", "Duration", "TrainingCenter", "District", "State",
   "AssessmentPartner", "IssuePlace", "QRCode"]

/-- Lines 92-95: `Array.from(new Set([...detected, ...standardPlaceholders]))`. -/
def templateUploadPlaceholders (xml : List Char) : List String :=
  dedupKeepFirst (extractPlaceholderNames xml ++ standardPlaceholders)

/-! ## Lemmas about literal prefixes and substring search -/

theorem stripPre_append (p r : List Char) : stripPre p (p ++ r) = some r := by
  induction p with
  | nil => rfl
  | cons c cs ih => simpa [stripPre] using ih

theorem stripPre_eq_some {p s r : List Char} (h : stripPre p s = some r) : s = p ++ r := by
  induction p generalizing s with
  | nil =>
      simp only [stripPre, Option.some.injEq] at h
      simp [h]
  | cons c cs ih =>
      cases s with
      | nil => simp [stripPre] at h
      | cons d s' =>
          simp only [stripPre] at h
          split at h
          · next hc => simpa [← hc] using congrArg (c :: ·) (ih h)
          · exact absurd h (by simp)

theorem stripPre_cons_ne {c : Char} {cs : List Char} {d : Char} {s : List Char}
    (h : c ≠ d) : stripPre (c :: cs) (d :: s) = none := by
  simp [stripPre, h]

theorem containsSub_of_isSome {p s : List Char} (h : (stripPre p s).isSome) :
    containsSub p s = true := by
  cases s with
  | nil => simpa [containsSub] using h
  | cons c s' => simp [containsSub, h]

theorem containsSub_parts (p a b : List Char) : containsSub p (a ++ p ++ b) = true := by
  induction a with
  | nil =>
      exact containsSub_of_isSome (by simp [stripPre_append])
  | cons c a' ih =>
      simp only [List.cons_append]
      simp only [containsSub, Bool.or_eq_true]
      right
      simpa [List.append_assoc] using ih

theorem containsSub_char {p s : List Char} {c : Char}
    (h : containsSub p s = true) (hc : c ∈ p) : c ∈ s := by
  induction s with
  | nil =>
      cases p with
      | nil => cases hc
      | cons d p' => simp [containsSub, stripPre] at h
  | cons d s' ih =>
      simp only [containsSub, Bool.or_eq_true] at h
      rcases h with h | h
      · rcases Option.isSome_iff_exists.mp h with ⟨r, hr⟩
        rw [stripPre_eq_some hr]
        exact List.mem_append_left _ hc
      · exact List.mem_cons_of_mem _ (ih h)

theorem containsSub_false_of_char {p s : List Char} {c : Char}
    (hc : c ∈ p) (hs : c ∉ s) : containsSub p s = false := by
  cases h : containsSub p s
  · rfl
  · exact absurd (containsSub_char h hc) hs

theorem containsSub_iff {p s : List Char} :
    containsSub p s = true ↔ ∃ a b, s = a ++ p ++ b := by
  constructor
  · intro h
    induction s with
    | nil =>
        cases p with
        | nil => exact ⟨[], [], rfl⟩
        | cons d p' => simp [containsSub, stripPre] at h
    | cons d s' ih =>
        simp only [containsSub, Bool.or_eq_true] at h
        rcases h with h | h
        · rcases Option.isSome_iff_exists.mp h with ⟨r, hr⟩
          exact ⟨[], r, by simpa using stripPre_eq_some hr⟩
        · rcases ih h with ⟨a, b, hab⟩
          exact ⟨d :: a, b, by simp [hab]⟩
  · rintro ⟨a, b, rfl⟩
    exact containsSub_parts p a b

theorem containsSub_inner {x p y s : List Char}
    (h : containsSub (x ++ p ++ y) s = true) : containsSub p s = true := by
  rcases containsSub_iff.mp h with ⟨a, b, rfl⟩
  refine containsSub_iff.mpr ⟨a ++ x, y ++ b, by simp⟩

theorem splitFirst_eq_some {p s a b : List Char}
    (h : splitFirst p s = some (a, b)) : s = a ++ p ++ b := by
  induction s generalizing a b with
  | nil =>
      simp only [splitFirst] at h
      split at h
      · next r hr =>
          cases p with
          | nil =>
              simp only [stripPre, Option.some.injEq] at hr
              simp_all
          | cons c cs => simp [stripPre] at hr
      · exact absurd h (by simp)
  | cons d s' ih =>
      simp only [splitFirst] at h
      split at h
      · next r hr =>
          simp only [Option.some.injEq, Prod.mk.injEq] at h
          rw [← h.1, ← h.2]
          simpa using stripPre_eq_some hr
      · next hr =>
          rcases Option.map_eq_some'.mp h with ⟨⟨a', b'⟩, hsp, hab⟩
          simp only [Prod.mk.injEq] at hab
          rw [← hab.1, ← hab.2]
          simpa using congrArg (d :: ·) (ih hsp)

/-! ## Lemmas about the matcher -/

theorem tryDesc_some {A : Type} {g : Nat → Option A} {mn k : Nat} {r : A}
    (h : tryDesc g mn k = some r) : ∃ j, g j = some r := by
  induction k with
  | zero =>
      simp only [tryDesc] at h
      split at h
      · exact ⟨0, h⟩
      · exact absurd h (by simp)
  | succ k ih =>
      simp only [tryDesc] at h
      split at h
      · exact absurd h (by simp)
      · split at h
        · next hg => exact ⟨k + 1, by rw [hg]; exact congrArg some (Option.some.inj h)⟩
        · exact ih h

theorem tryAscAux_some {A : Type} {g : Nat → Option A} {f k : Nat} {r : A}
    (h : tryAscAux g f k = some r) : ∃ j, g j = some r := by
  induction f generalizing k with
  | zero => exact ⟨k, h⟩
  | succ f ih =>
      simp only [tryAscAux] at h
      split at h
      · next hg => exact ⟨k, by rw [hg]; exact congrArg some (Option.some.inj h)⟩
      · exact ih h

theorem tryAsc_some {A : Type} {g : Nat → Option A} {mn hi : Nat} {r : A}
    (h : tryAsc g mn hi = some r) : ∃ j, g j = some r := by
  unfold tryAsc at h
  split at h
  · exact tryAscAux_some h
  · exact absurd h (by simp)

theorem firstSome_some {A : Type} {g : Nat → Option A} {ks : List Nat} {r : A}
    (h : firstSome g ks = some r) : ∃ j, g j = some r := by
  induction ks with
  | nil => exact absurd h (by simp [firstSome])
  | cons k ks ih =>
      simp only [firstSome] at h
      split at h
      · next hg => exact ⟨k, by rw [hg]; exact congrArg some (Option.some.inj h)⟩
      · exact ih h

/-- Any successful match contains every character of every literal token of
the pattern: the matched region must spell out each literal. -/
theorem rxm_char {ts : List RTok} {s : List Char} {n : Nat} {caps : List (List Char)}
    {cs : List Char} {c : Char}
    (h : rxm ts s = some (n, caps)) (hts : RTok.lit cs ∈ ts) (hc : c ∈ cs) : c ∈ s := by
  induction ts generalizing s n caps with
  | nil => cases hts
  | cons t ts ih =>
      cases t with
      | lit ds =>
          rcases List.mem_cons.mp hts with h1 | h2
          · cases hsp : stripPre ds s with
            | none => rw [rxm, hsp] at h; exact absurd h (by simp)
            | some r =>
                rw [stripPre_eq_some hsp]
                cases h1
                exact List.mem_append_left _ hc
          · cases hsp : stripPre ds s with
            | none => rw [rxm, hsp] at h; exact absurd h (by simp)
            | some r =>
                rw [rxm, hsp] at h
                rcases Option.map_eq_some'.mp h with ⟨⟨n', caps'⟩, hr, _⟩
                rw [stripPre_eq_some hsp]
                exact List.mem_append_right _ (ih hr h2)
      | one p =>
          have h2 : RTok.lit cs ∈ ts := by
            rcases List.mem_cons.mp hts with h1 | h2
            · cases h1
            · exact h2
          cases s with
          | nil => exact absurd h (by simp [rxm])
          | cons d s' =>
              rw [rxm] at h
              split at h
              · rcases Option.map_eq_some'.mp h with ⟨⟨n', caps'⟩, hr, _⟩
                exact List.mem_cons_of_mem _ (ih hr h2)
              · exact absurd h (by simp)
      | opt p =>
          have h2 : RTok.lit cs ∈ ts := by
            rcases List.mem_cons.mp hts with h1 | h2
            · cases h1
            · exact h2
          cases s with
          | nil => exact ih h h2
          | cons d s' =>
              rw [rxm] at h
              split at h
              · split at h
                · next r hr =>
                    have hr2 : (rxm ts s').map (fun x => (x.1 + 1, x.2)) = some (n, caps) := by
                      rw [hr]; exact congrArg some (Option.some.inj h)
                    rcases Option.map_eq_some'.mp hr2 with ⟨⟨n', caps'⟩, hr', _⟩
                    exact List.mem_cons_of_mem _ (ih hr' h2)
                · exact ih h h2
              · exact ih h h2
      | cls p mn lzy cap =>
          have h2 : RTok.lit cs ∈ ts := by
            rcases List.mem_cons.mp hts with h1 | h2
            · cases h1
            · exact h2
          rw [rxm] at h
          have hg : ∃ j, (rxm ts (s.drop j)).map
              (fun x => (x.1 + j, if cap then s.take j :: x.2 else x.2)) = some (n, caps) := by
            split at h
            · exact tryAsc_some h
            · exact tryDesc_some h
          rcases hg with ⟨j, hj⟩
          rcases Option.map_eq_some'.mp hj with ⟨⟨n', caps'⟩, hr, _⟩
          exact List.mem_of_mem_drop (ih hr h2)
      | tagSeq =>
          have h2 : RTok.lit cs ∈ ts := by
            rcases List.mem_cons.mp hts with h1 | h2
            · cases h1
            · exact h2
          rw [rxm] at h
          rcases firstSome_some h with ⟨j, hj⟩
          rcases Option.map_eq_some'.mp hj with ⟨⟨n', caps'⟩, hr, _⟩
          exact List.mem_of_mem_drop (ih hr h2)

theorem rxm_none_of_char {ts : List RTok} {s cs : List Char} {c : Char}
    (hts : RTok.lit cs ∈ ts) (hc : c ∈ cs) (hs : c ∉ s) : rxm ts s = none := by
  cases h : rxm ts s with
  | none => rfl
  | some x =>
      obtain ⟨n, caps⟩ := x
      exact absurd (rxm_char h hts hc) hs

theorem rxm_lit_cons_ne {a : Char} {cs : List Char} {ts : List RTok} {d : Char} {s : List Char}
    (h : a ≠ d) : rxm (.lit (a :: cs) :: ts) (d :: s) = none := by
  rw [rxm, stripPre_cons_ne h]

/-- A pattern opening with the literal character `a` matches at no nonempty
suffix of a string avoiding `a`. -/
theorem rxm_head_none {a : Char} {cs : List Char} {ts : List RTok} {s t : List Char}
    (hfree : a ∉ s) (ht : t ≠ []) (hsuf : t <:+ s) :
    rxm (.lit (a :: cs) :: ts) t = none := by
  cases t with
  | nil => exact absurd rfl ht
  | cons d t' =>
      have hd : d ∈ s := hsuf.subset (List.mem_cons_self d t')
      exact rxm_lit_cons_ne (fun he => hfree (by rw [he]; exact hd))

/-! ## Lemmas about the global-replace scanner -/

theorem scanRep_nomatch {m : List Char → Option (Nat × List (List Char))}
    {rep : List (List Char) → List Char} {s : List Char}
    (h : ∀ t, t ≠ [] → t <:+ s → m t = none) : ∀ f, scanRep m rep f s = s := by
  induction s with
  | nil => intro f; cases f <;> rfl
  | cons c s' ih =>
      intro f
      cases f with
      | zero => rfl
      | succ f =>
          have hm : m (c :: s') = none := h _ (by simp) (List.suffix_refl _)
          simp only [scanRep, hm]
          exact congrArg (c :: ·)
            (ih (fun t ht hsuf => h t ht (hsuf.trans (List.suffix_cons c s'))) f)

theorem scanRep_cons_none {m : List Char → Option (Nat × List (List Char))}
    {rep : List (List Char) → List Char} {c : Char} {s : List Char}
    (hm : m (c :: s) = none) (f : Nat) :
    scanRep m rep (f + 1) (c :: s) = c :: scanRep m rep f s := by
  simp [scanRep, hm]

theorem scanRep_append {m : List Char → Option (Nat × List (List Char))}
    {rep : List (List Char) → List Char} {L s : List Char}
    (h : ∀ t, t ≠ [] → t <:+ L → m (t ++ s) = none) :
    ∀ f, scanRep m rep (L.length + f) (L ++ s) = L ++ scanRep m rep f s := by
  induction L with
  | nil => intro f; simp
  | cons c L' ih =>
      intro f
      have hm : m (c :: (L' ++ s)) = none := by
        simpa using h (c :: L') (by simp) (List.suffix_refl _)
      have hfn : (c :: L').length + f = (L'.length + f) + 1 := by
        simp [Nat.succ_add, Nat.add_right_comm]
      rw [hfn, List.cons_append, scanRep_cons_none hm]
      exact congrArg (c :: ·)
        (ih (fun t ht hsuf => h t ht (hsuf.trans (List.suffix_cons c L'))) f)

theorem scanRep_cons_match {m : List Char → Option (Nat × List (List Char))}
    {rep : List (List Char) → List Char} {c : Char} {s : List Char}
    {n : Nat} {caps : List (List Char)}
    (h : m (c :: s) = some (n, caps)) (hn : n ≠ 0) (f : Nat) :
    scanRep m rep (f + 1) (c :: s) = rep caps ++ scanRep m rep f ((c :: s).drop n) := by
  simp [scanRep, h, hn]

theorem scanRep_fuel {m : List Char → Option (Nat × List (List Char))}
    {rep : List (List Char) → List Char} :
    ∀ (N : Nat) (s : List Char) (f g : Nat),
    s.length ≤ N → s.length ≤ f → s.length ≤ g →
    scanRep m rep f s = scanRep m rep g s := by
  intro N
  induction N with
  | zero =>
      intro s f g h1 _ _
      have hs : s = [] := List.eq_nil_of_length_eq_zero (Nat.le_zero.mp h1)
      subst hs; cases f <;> cases g <;> rfl
  | succ N ih =>
      intro s f g h1 hf hg
      cases s with
      | nil => cases f <;> cases g <;> rfl
      | cons c s' =>
          obtain ⟨f', rfl⟩ : ∃ f', f = f' + 1 := ⟨f - 1, by simp at hf; omega⟩
          obtain ⟨g', rfl⟩ : ∃ g', g = g' + 1 := ⟨g - 1, by simp at hg; omega⟩
          simp only [scanRep]
          cases hm : m (c :: s') with
          | none =>
              rw [ih s' f' g' (by simp at h1; omega) (by simp at hf; omega)
                (by simp at hg; omega)]
          | some x =>
              obtain ⟨n, caps⟩ := x
              by_cases hn : n = 0
              · subst hn
                have hR := ih s' f' g' (by simp at h1; omega) (by simp at hf; omega)
                  (by simp at hg; omega)
                simp [hR]
              · simp only [if_neg hn]
                have h4 : ((c :: s').drop n).length ≤ N := by
                  simp only [List.length_drop, List.length_cons]
                  simp only [List.length_cons] at h1
                  omega
                rw [ih _ f' g' h4
                  (by simp only [List.length_drop, List.length_cons] at *; omega)
                  (by simp only [List.length_drop, List.length_cons] at *; omega)]

theorem applyPat_nomatch {pat : List RTok} {rp : List RPiece} {s : List Char}
    (h : ∀ t, t ≠ [] → t <:+ s → rxm pat t = none) : applyPat pat rp s = s :=
  scanRep_nomatch h _

/-- A pass whose pattern opens with the literal character `a` leaves any
text avoiding `a` unchanged. -/
theorem applyPat_free {pat : List RTok} {rp : List RPiece} {a : Char}
    {cs : List Char} {ts : List RTok} (hp : pat = .lit (a :: cs) :: ts)
    {s : List Char} (hfree : a ∉ s) : applyPat pat rp s = s :=
  applyPat_nomatch (fun _t ht hsuf => hp ▸ rxm_head_none hfree ht hsuf)

/-! ## Lemmas about the substitution engine -/

/-- The contiguous placeholder token `{{n}}`. -/
def phTok (n : List Char) : List Char := obr :: obr :: (n ++ [cbr, cbr])

theorem renderTags_free {lk : List Char → Option (List Char)} {s : List Char}
    (h : obr ∉ s) : ∀ f, renderTags lk f s = .ok s := by
  induction s with
  | nil => intro f; cases f <;> rfl
  | cons c s' ih =>
      intro f
      cases f with
      | zero => rfl
      | succ f =>
          have hc : ¬(c = obr ∧ s'.head? = some obr) := by
            rintro ⟨rfl, _⟩; exact h (List.mem_cons_self _ _)
          simp only [renderTags, if_neg hc]
          rw [ih (fun hm => h (List.mem_cons_of_mem _ hm)) f]
          rfl

theorem renderTags_append_free {lk : List Char → Option (List Char)} {L : List Char}
    (h : obr ∉ L) :
    ∀ (s : List Char) (f : Nat),
      renderTags lk (L.length + f) (L ++ s) = (L ++ ·) <$> renderTags lk f s := by
  induction L with
  | nil =>
      intro s f
      simp only [List.length_nil, Nat.zero_add, List.nil_append]
      cases renderTags lk f s <;> simp [Except.map]
  | cons c L' ih =>
      intro s f
      have hco : c ≠ obr := fun he => h (he ▸ List.mem_cons_self _ _)
      have hc : ¬(c = obr ∧ (L' ++ s).head? = some obr) := fun hx => hco hx.1
      rw [show (c :: L').length + f = (L'.length + f) + 1 from by
        simp [Nat.succ_add]]
      rw [List.cons_append]
      simp only [renderTags, if_neg hc]
      rw [ih (fun hm => h (List.mem_cons_of_mem _ hm)) s f]
      cases renderTags lk f s <;> rfl

theorem takeWhile_append_stop {p : Char → Bool} {n : List Char}
    (hn : ∀ c ∈ n, p c = true) {d : Char} (hd : p d = false) (rest : List Char) :
    (n ++ d :: rest).takeWhile p = n := by
  induction n with
  | nil => simp [List.takeWhile, hd]
  | cons c n' ih =>
      have hc : p c = true := hn c (List.mem_cons_self _ _)
      simp only [List.cons_append, List.takeWhile, hc]
      exact congrArg (c :: ·) (ih (fun c' hm => hn c' (List.mem_cons_of_mem _ hm)))

theorem renderTags_token {lk : List Char → Option (List Char)} {n : List Char}
    (hn : n ≠ []) (hni : ∀ c ∈ n, isIdentChar c = true) (rest : List Char) (f : Nat) :
    renderTags lk (f + 1) (phTok n ++ rest) =
      ((match lk n with
        | some v => v
        | none => sl "\x7b\x7b" ++ n ++ sl "\x7d\x7d") ++ ·) <$> renderTags lk f rest := by
  have hshape : phTok n ++ rest = obr :: (obr :: (n ++ cbr :: cbr :: rest)) := by
    simp [phTok]
  rw [hshape]
  have hcond : (obr = obr ∧ (obr :: (n ++ cbr :: cbr :: rest)).head? = some obr) := by simp
  simp only [renderTags, if_pos hcond, List.tail_cons]
  have htw : (n ++ cbr :: cbr :: rest).takeWhile isIdentChar = n :=
    takeWhile_append_stop hni (by decide) _
  rw [htw]
  have hdrop : (n ++ cbr :: cbr :: rest).drop n.length = cbr :: cbr :: rest :=
    List.drop_left n _
  rw [hdrop]
  have hsp : stripPre (sl "\x7d\x7d") (cbr :: cbr :: rest) = some rest := rfl
  simp only [hsp, Option.isSome_some, ne_eq, hn, not_false_eq_true, and_self, if_pos,
    List.drop_succ_cons, List.drop_zero]
  simp

theorem renderTags_fuel {lk : List Char → Option (List Char)} :
    ∀ (N : Nat) (s : List Char) (f g : Nat),
    s.length ≤ N → s.length ≤ f → s.length ≤ g →
    renderTags lk f s = renderTags lk g s := by
  intro N
  induction N with
  | zero =>
      intro s f g h1 _ _
      have hs : s = [] := List.eq_nil_of_length_eq_zero (Nat.le_zero.mp h1)
      subst hs; cases f <;> cases g <;> rfl
  | succ N ih =>
      intro s f g h1 hf hg
      cases s with
      | nil => cases f <;> cases g <;> rfl
      | cons c s' =>
          obtain ⟨f', rfl⟩ : ∃ f', f = f' + 1 := ⟨f - 1, by simp at hf; omega⟩
          obtain ⟨g', rfl⟩ : ∃ g', g = g' + 1 := ⟨g - 1, by simp at hg; omega⟩
          simp only [renderTags]
          split
          · split
            · have h4 : (((s'.tail).drop ((s'.tail.takeWhile isIdentChar).length)).drop 2).length ≤ N := by
                simp only [List.length_drop, List.length_tail, List.length_cons] at *
                omega
              rw [ih _ f' g' h4
                (by simp only [List.length_drop, List.length_tail, List.length_cons] at *; omega)
                (by simp only [List.length_drop, List.length_tail, List.length_cons] at *; omega)]
            · split
              · rw [ih s' f' g' (by simp at h1; omega) (by simp at hf; omega)
                  (by simp at hg; omega)]
              · rfl
          · rw [ih s' f' g' (by simp at h1; omega) (by simp at hf; omega)
              (by simp at hg; omega)]

/-! ## Lemmas about the archive model -/

theorem zsetFiles_find_self (p : String) (c : List Char) :
    ∀ fs, (zsetFiles p c fs).find? (fun q => q.1 = p) = some (p, c) := by
  intro fs
  induction fs with
  | nil => simp [zsetFiles, List.find?]
  | cons q fs ih =>
      by_cases hq : q.1 = p
      · simp [zsetFiles, hq, List.find?]
      · simp only [zsetFiles, if_neg hq, List.find?]
        simp only [hq, decide_False]
        exact ih

theorem zfile_zset_self (z : PizZip) (p : String) (c : List Char) :
    zfile (zset z p c) p = some c := by
  simp [zfile, zset, zsetFiles_find_self]

theorem zsetFiles_find_ne {p p' : String} (h : p' ≠ p) (c : List Char) :
    ∀ fs, (zsetFiles p c fs).find? (fun q => q.1 = p') = fs.find? (fun q => q.1 = p') := by
  intro fs
  induction fs with
  | nil => simp [zsetFiles, List.find?, h.symm]
  | cons q fs ih =>
      by_cases hq : q.1 = p
      · simp only [zsetFiles, if_pos hq, List.find?]
        simp [h.symm, decide_False, hq]
      · simp only [zsetFiles, if_neg hq, List.find?]
        cases hq' : decide (q.1 = p')
        · simpa [hq'] using ih
        · simp [hq']

theorem zfile_zset_ne {p p' : String} (h : p' ≠ p) (z : PizZip) (c : List Char) :
    zfile (zset z p c) p' = zfile z p' := by
  simp [zfile, zset, zsetFiles_find_ne h]

theorem zsetFiles_length_present (p : String) (c : List Char) :
    ∀ fs, fs.find? (fun q => q.1 = p) ≠ none →
      (zsetFiles p c fs).length = fs.length := by
  intro fs
  induction fs with
  | nil => intro h; exact absurd rfl h
  | cons q fs ih =>
      intro h
      by_cases hq : q.1 = p
      · simp [zsetFiles, hq]
      · simp only [zsetFiles, if_neg hq, List.length_cons]
        rw [ih]
        intro hn
        apply h
        simp only [List.find?, hq, decide_False]
        exact hn

theorem zsetFiles_length_absent (p : String) (c : List Char) :
    ∀ fs, fs.find? (fun q => q.1 = p) = none →
      (zsetFiles p c fs).length = fs.length + 1 := by
  intro fs
  induction fs with
  | nil => intro _; rfl
  | cons q fs ih =>
      intro h
      by_cases hq : q.1 = p
      · simp only [List.find?, hq, decide_True] at h
        exact absurd h (by simp)
      · simp only [List.find?, hq, decide_False] at h
        simp only [zsetFiles, if_neg hq, List.length_cons]
        rw [ih h]

theorem zset_length_present {z : PizZip} {p : String} (hp : zfile z p ≠ none)
    (c : List Char) : (zset z p c).files.length = z.files.length := by
  apply zsetFiles_length_present
  intro hn
  apply hp
  simp [zfile, hn]

theorem zset_length_absent {z : PizZip} {p : String} (hp : zfile z p = none)
    (c : List Char) : (zset z p c).files.length = z.files.length + 1 := by
  apply zsetFiles_length_absent
  by_cases hn : z.files.find? (fun q => q.1 = p) = none
  · exact hn
  · rcases Option.ne_none_iff_exists'.mp hn with ⟨q, hq⟩
    rw [zfile, hq] at hp
    exact absurd hp (by simp)

/-! ## Frame lemmas for the cleanup passes -/

theorem applyPat_append_free {pat : List RTok} {rp : List RPiece} {a : Char}
    {cs : List Char} {ts : List RTok} (hp : pat = .lit (a :: cs) :: ts)
    {L : List Char} (hfree : a ∉ L) (s : List Char) :
    applyPat pat rp (L ++ s) = L ++ applyPat pat rp s := by
  unfold applyPat
  have hlen : (L ++ s).length + 1 = L.length + (s.length + 1) := by
    simp only [List.length_append]; omega
  rw [hlen]
  refine scanRep_append ?_ (s.length + 1)
  intro t ht hsuf
  cases t with
  | nil => exact absurd rfl ht
  | cons d t' =>
      have hd : d ∈ L := hsuf.subset (List.mem_cons_self d t')
      rw [hp, List.cons_append]
      exact rxm_lit_cons_ne (fun he => hfree (by rw [he]; exact hd))

theorem cleanup_free_id {s : List Char} (h : obr ∉ s) :
    cleanupBrokenPlaceholders s = s := by
  have e1 : applyPat pat1 rep1 s = s := applyPat_free rfl h
  have e2 : applyPat pat2 rep1 s = s := applyPat_free rfl h
  have e3 : applyPat pat3 rep3 s = s := applyPat_free rfl h
  have e4 : applyPat pat4 rep4 s = s := applyPat_free rfl h
  have e5 : applyPat pat5 rep5 s = s := applyPat_free rfl h
  have e6 : applyPat pat6 rep5 s = s := applyPat_free rfl h
  have e7 : applyPat pat7 rep5 s = s := applyPat_free rfl h
  have e8 : applyPat pat8 rep4 s = s := applyPat_free rfl h
  have e9 : applyPat pat9 rep4 s = s := applyPat_free rfl h
  have e10 : applyPat pat10 rep4 s = s := applyPat_free rfl h
  unfold cleanupBrokenPlaceholders
  rw [e1, e2, e3, e4, e5, e6, e7, e8, e9, e10]

theorem marker_free_id {s : List Char} (h : obr ∉ s) :
    replaceQRCodeWithMarker s = s := applyPat_free rfl h

/-! ## C6 -/

/-- The crafted body XML on which one run of the cleanup passes produces a
tab-glued pair `{{p}}…{{ab}}` that only the (already executed) pass 5 can
collapse, so a second run rewrites further. -/
def c6Input : List Char :=
  sl "\x7b\x7bp\x7d\x7d</w:t></w:r><w:tab/><w:r><w:rPr></w:rPr><w:t>\x7b\x7ba</w:t></w:r><w:z w=\"\x7d\"/><w:r><w:rPr></w:rPr><w:t xml:space=\"preserve\">b</w:t></w:r><w:z/><w:r><w:rPr></w:rPr><w:t>\x7d\x7d"

/-- C6 counterexample: the pass sequence is not idempotent.  On `c6Input`
one run yields `{{p}}</w:t></w:r><w:tab/>…<w:t>{{ab}}` (pass 10 collapses
the split `{{ab}}` after passes 5-7 have already run), and a second run
collapses the tab pattern to `{{p}} {{ab}}`. -/
theorem cleanup_passes_not_idempotent :
    cleanupBrokenPlaceholders (cleanupBrokenPlaceholders c6Input) ≠
      cleanupBrokenPlaceholders c6Input := by decide

/-- C6 (amended): the repair sequence is a fixed point only on restricted
inputs; on any body XML containing no `{` character it is the identity, and
hence idempotent there. -/
theorem cleanup_passes_idempotent_on_brace_free (s : List Char) (h : obr ∉ s) :
    cleanupBrokenPlaceholders (cleanupBrokenPlaceholders s) =
      cleanupBrokenPlaceholders s := by
  rw [cleanup_free_id h, cleanup_free_id h]

theorem cleanup_passes_idempotent_on_brace_free_witness :
    obr ∉ sl "<w:p>plain paragraph</w:p>" ∧
      cleanupBrokenPlaceholders (cleanupBrokenPlaceholders (sl "<w:p>plain paragraph</w:p>")) =
        cleanupBrokenPlaceholders (sl "<w:p>plain paragraph</w:p>") :=
  ⟨by decide, cleanup_passes_idempotent_on_brace_free _ (by decide)⟩

/-! ## C8 -/

def c8u : List Char :=
  sl "\x7b\x7ba</w:t></w:r><w:z/><w:r><w:rPr></w:rPr><w:t>b</w:p>"

def c8v : List Char :=
  sl "<w:p>c</w:t></w:r><w:z/><w:r><w:rPr></w:rPr><w:t>\x7d\x7d"

/-- C8 counterexample: a repair-pass rewrite can match text spanning a
paragraph boundary.  `c8u` ends a paragraph and `c8v` opens the next one;
each part alone is untouched by every pass, yet on the concatenation pass 9
matches across `</w:p><w:p>` (its `([^}]*?)` capture crosses the boundary)
and rewrites both sides of it. -/
theorem cleanup_pass_crosses_paragraph_boundary :
    cleanupBrokenPlaceholders c8u = c8u ∧
    cleanupBrokenPlaceholders c8v = c8v ∧
    (∃ t, c8u = t ++ sl "</w:p>") ∧
    (∃ t, c8v = sl "<w:p>" ++ t) ∧
    cleanupBrokenPlaceholders (c8u ++ c8v) ≠
      cleanupBrokenPlaceholders c8u ++ cleanupBrokenPlaceholders c8v := by
  refine ⟨by decide, by decide, ⟨sl "\x7b\x7ba</w:t></w:r><w:z/><w:r><w:rPr></w:rPr><w:t>b", by decide⟩,
    ⟨sl "c</w:t></w:r><w:z/><w:r><w:rPr></w:rPr><w:t>\x7d\x7d", by decide⟩, by decide⟩

/-- C8 (amended): the repair passes are not confined to single paragraphs
(counterexample above); the frame property that does hold is that every
pattern must begin at a `{{`, so any prefix containing no `{` character —
in particular any complete run of paragraphs before the first brace — is
left byte-for-byte unchanged, all rewriting happening in the remainder. -/
theorem cleanup_passes_prefix_frame (L s : List Char) (h : obr ∉ L) :
    cleanupBrokenPlaceholders (L ++ s) = L ++ cleanupBrokenPlaceholders s := by
  have h1 : ∀ t, applyPat pat1 rep1 (L ++ t) = L ++ applyPat pat1 rep1 t :=
    applyPat_append_free rfl h
  have h2 : ∀ t, applyPat pat2 rep1 (L ++ t) = L ++ applyPat pat2 rep1 t :=
    applyPat_append_free rfl h
  have h3 : ∀ t, applyPat pat3 rep3 (L ++ t) = L ++ applyPat pat3 rep3 t :=
    applyPat_append_free rfl h
  have h4 : ∀ t, applyPat pat4 rep4 (L ++ t) = L ++ applyPat pat4 rep4 t :=
    applyPat_append_free rfl h
  have h5 : ∀ t, applyPat pat5 rep5 (L ++ t) = L ++ applyPat pat5 rep5 t :=
    applyPat_append_free rfl h
  have h6 : ∀ t, applyPat pat6 rep5 (L ++ t) = L ++ applyPat pat6 rep5 t :=
    applyPat_append_free rfl h
  have h7 : ∀ t, applyPat pat7 rep5 (L ++ t) = L ++ applyPat pat7 rep5 t :=
    applyPat_append_free rfl h
  have h8 : ∀ t, applyPat pat8 rep4 (L ++ t) = L ++ applyPat pat8 rep4 t :=
    applyPat_append_free rfl h
  have h9 : ∀ t, applyPat pat9 rep4 (L ++ t) = L ++ applyPat pat9 rep4 t :=
    applyPat_append_free rfl h
  have h10 : ∀ t, applyPat pat10 rep4 (L ++ t) = L ++ applyPat pat10 rep4 t :=
    applyPat_append_free rfl h
  simp only [cleanupBrokenPlaceholders, h1, h2, h3, h4, h5, h6, h7, h8, h9, h10]

theorem cleanup_passes_prefix_frame_witness :
    obr ∉ sl "<w:p>intro</w:p>" ∧
      cleanupBrokenPlaceholders (sl "<w:p>intro</w:p>" ++ (c8u ++ c8v)) =
        sl "<w:p>intro</w:p>" ++ cleanupBrokenPlaceholders (c8u ++ c8v) :=
  ⟨by decide, cleanup_passes_prefix_frame _ _ (by decide)⟩

/-! ## C7 -/

/-- C7: when the input binary cannot be parsed as a valid archive, or the
body part `word/document.xml` is missing, or the substitution engine reports
an unrecoverable template syntax error on the repaired body, the render
fails by surfacing a `TemplateRenderError`; being an `Except.error`, it
carries no output archive at all. -/
theorem renderDocxTemplate_fails_on_parse_or_engine_error (ctx : RenderContext)
    (h : ctx.templateArrayBuffer = .corrupt ∨
      (∃ z, ctx.templateArrayBuffer = .valid z ∧ zfile z docPath = none) ∨
      (∃ z body e0, ctx.templateArrayBuffer = .valid z ∧
        zfile z docPath = some body ∧
        renderTags (enrich ctx.data ctx.qrCodeDataUrl)
          ((replaceQRCodeWithMarker (cleanupBrokenPlaceholders body)).length + 1)
          (replaceQRCodeWithMarker (cleanupBrokenPlaceholders body)) = .error e0)) :
    ∃ e, renderDocxTemplate ctx = .error e := by
  rcases h with h | ⟨z, hz, hb⟩ | ⟨z, body, e0, hz, hb, he⟩
  · exact ⟨.parseFailure, by
      simp [renderDocxTemplate, textSubstitutedZip, pizzipLoad, h]⟩
  · exact ⟨.missingBodyPart, by
      simp [renderDocxTemplate, textSubstitutedZip, pizzipLoad, hz, hb]⟩
  · refine ⟨.engineError e0, ?_⟩
    simp only [renderDocxTemplate, textSubstitutedZip, pizzipLoad, hz, hb,
      zfile_zset_self, he]

theorem renderDocxTemplate_fails_witness :
    ∃ e, renderDocxTemplate ⟨.corrupt, [], none⟩ = .error e :=
  renderDocxTemplate_fails_on_parse_or_engine_error ⟨.corrupt, [], none⟩ (.inl rfl)

/-! ## C9 -/

/-- C9: when a QR payload starting with `data:image` is supplied but the
injection step throws (modelled: the base64 decode fails, which happens
before any mutation of the archive), the exception is caught and
`renderDocxTemplate` still returns the text-substituted archive without the
image; injection failure never makes the render call itself fail. -/
theorem renderDocxTemplate_qr_failure_nonfatal (ctx : RenderContext)
    (q : List Char) (z3 : PizZip)
    (hq : ctx.qrCodeDataUrl = some q)
    (hsw : (stripPre (sl "data:image") q).isSome)
    (hdec : decodeDataUrl q = none)
    (hok : textSubstitutedZip ctx = .ok z3) :
    renderDocxTemplate ctx = .ok z3 := by
  unfold renderDocxTemplate
  rw [hok, hq]
  simp [hsw, injectQRImage, hdec]

theorem renderDocxTemplate_qr_failure_nonfatal_witness :
    renderDocxTemplate ⟨.valid ⟨[(docPath, sl "A")]⟩, [], some (sl "data:image/png")⟩ =
      .ok ⟨[(docPath, sl "A")]⟩ :=
  renderDocxTemplate_qr_failure_nonfatal _ (sl "data:image/png") _ rfl
    (by decide) (by decide) rfl

/-! ## C10 -/

theorem mem_dedupAux {x : String} :
    ∀ {l seen : List String}, x ∈ l → seen.contains x = false → x ∈ dedupAux seen l := by
  intro l
  induction l with
  | nil => intro seen h _; cases h
  | cons y l' ih =>
      intro seen h hseen
      by_cases hxy : x = y
      · subst hxy
        simp only [dedupAux, hseen, Bool.false_eq_true, if_false]
        exact List.mem_cons_self _ _
      · rcases List.mem_cons.mp h with h1 | h2
        · exact absurd h1 hxy
        · cases hcy : seen.contains y
          · simp only [dedupAux, hcy, Bool.false_eq_true, if_false]
            refine List.mem_cons_of_mem _ (ih h2 ?_)
            have hne : (x == y) = false := beq_eq_false_iff_ne.mpr hxy
            simp only [List.contains_cons, Bool.or_eq_false_iff]
            exact ⟨hne, hseen⟩
          · simp only [dedupAux, hcy, if_true]
            exact ih h2 hseen

theorem mem_dedupKeepFirst {x : String} {l : List String} (h : x ∈ l) :
    x ∈ dedupKeepFirst l :=
  mem_dedupAux h rfl

/-- C10: placeholder discovery at template upload returns the union of the
names found in the body XML with the fixed 19-element built-in list, so for
every template — including one with zero `{{…}}` tokens — the reported set
contains all 19 standard names and is never empty. -/
theorem templateUploadPlaceholders_contains_standard (xml : List Char) :
    standardPlaceholders.length = 19 ∧
    (∀ nm, nm ∈ standardPlaceholders → nm ∈ templateUploadPlaceholders xml) ∧
    templateUploadPlaceholders xml ≠ [] := by
  refine ⟨rfl, ?_, ?_⟩
  · intro nm hnm
    exact mem_dedupKeepFirst (List.mem_append_right _ hnm)
  · intro hempty
    have hmem : "Name" ∈ templateUploadPlaceholders xml :=
      mem_dedupKeepFirst (List.mem_append_right _ (by simp [standardPlaceholders]))
    rw [hempty] at hmem
    cases hmem

theorem templateUploadPlaceholders_contains_standard_witness :
    "Name" ∈ templateUploadPlaceholders (sl "no tokens at all") ∧
      templateUploadPlaceholders (sl "no tokens at all") ≠ [] :=
  ⟨(templateUploadPlaceholders_contains_standard (sl "no tokens at all")).2.1 "Name"
      (by simp [standardPlaceholders]),
    (templateUploadPlaceholders_contains_standard (sl "no tokens at all")).2.2⟩

/-! ## Pipeline assembly helpers -/

theorem textSubstitutedZip_of_fixed (z : PizZip) (data : List (List Char × List Char))
    (qr : Option (List Char)) (body body2 : List Char)
    (hbody : zfile z docPath = some body)
    (hclean : cleanupBrokenPlaceholders body = body)
    (hmark : replaceQRCodeWithMarker body = body)
    (hsub : renderTags (enrich data qr) (body.length + 1) body = .ok body2) :
    textSubstitutedZip ⟨.valid z, data, qr⟩ =
      .ok (zset (zset (zset z docPath body) docPath body) docPath body2) := by
  simp only [textSubstitutedZip, pizzipLoad, hbody, hclean, zfile_zset_self, hmark, hsub]

theorem renderDocxTemplate_no_qr (ctx : RenderContext) (z3 : PizZip)
    (hq : ctx.qrCodeDataUrl = none) (h : textSubstitutedZip ctx = .ok z3) :
    renderDocxTemplate ctx = .ok z3 := by
  simp [renderDocxTemplate, h, hq]

/-- Substituting a body that is a single well-formed token between brace-free
surroundings: the token is replaced by its lookup result (or kept literal). -/
theorem renderTags_plain_token (lk : List Char → Option (List Char))
    (n L R : List Char) (hn : n ≠ []) (hni : ∀ c ∈ n, isIdentChar c = true)
    (hLo : obr ∉ L) (hRo : obr ∉ R) :
    renderTags lk ((L ++ phTok n ++ R).length + 1) (L ++ phTok n ++ R) =
      .ok (L ++ (match lk n with
        | some v => v
        | none => sl "\x7b\x7b" ++ n ++ sl "\x7d\x7d") ++ R) := by
  have hassoc : L ++ phTok n ++ R = L ++ (phTok n ++ R) := by
    rw [List.append_assoc]
  rw [hassoc]
  have hlen : (L ++ (phTok n ++ R)).length + 1 = L.length + ((phTok n ++ R).length + 1) := by
    simp only [List.length_append]; omega
  rw [hlen, renderTags_append_free hLo]
  rw [show (phTok n ++ R).length + 1 = ((phTok n ++ R).length - 1 + 1) + 1 from by
    simp [phTok]]
  rw [renderTags_token hn hni R _, renderTags_free hRo]
  simp [List.append_assoc]

/-! ## C1 -/

/-- C1 (amended): for a placeholder name `n` (identifier characters,
`n ≠ QRCode`), a value `v` without `{`, and a body `L ++ {{n}} ++ R` whose
surroundings are brace-free and which the repair and marker pre-passes leave
unchanged, rendering with mapping `{n: v}` and no QR image yields a body
that contains `v` and no longer contains the token `{{n}}`.  (For
`n = QRCode` the claim fails: see the counterexample.) -/
theorem renderDocxTemplate_substitutes_mapped_placeholder
    (n v L R : List Char) (z : PizZip)
    (hn : n ≠ []) (hni : ∀ c ∈ n, isIdentChar c = true)
    (hnq : n ≠ sl "QRCode")
    (hLo : obr ∉ L) (hRo : obr ∉ R) (hvo : obr ∉ v)
    (hbody : zfile z docPath = some (L ++ phTok n ++ R))
    (hclean : cleanupBrokenPlaceholders (L ++ phTok n ++ R) = L ++ phTok n ++ R)
    (hmark : replaceQRCodeWithMarker (L ++ phTok n ++ R) = L ++ phTok n ++ R) :
    ∃ out, renderDocxTemplate ⟨.valid z, [(n, v)], none⟩ = .ok out ∧
      zfile out docPath = some (L ++ v ++ R) ∧
      containsSub v (L ++ v ++ R) = true ∧
      containsSub (phTok n) (L ++ v ++ R) = false := by
  have hlk : enrich [(n, v)] none n = some v := by
    simp [enrich, hnq, List.find?]
  have hsub : renderTags (enrich [(n, v)] none)
      ((L ++ phTok n ++ R).length + 1) (L ++ phTok n ++ R) = .ok (L ++ v ++ R) := by
    rw [renderTags_plain_token _ n L R hn hni hLo hRo, hlk]
  have htext := textSubstitutedZip_of_fixed z [(n, v)] none _ _ hbody hclean hmark hsub
  refine ⟨_, renderDocxTemplate_no_qr _ _ rfl htext, zfile_zset_self _ _ _, ?_, ?_⟩
  · exact containsSub_parts v L R
  · refine containsSub_false_of_char (List.mem_cons_self obr _) ?_
    simp only [List.mem_append, not_or]
    exact ⟨⟨hLo, hvo⟩, hRo⟩

theorem renderDocxTemplate_substitutes_mapped_placeholder_witness :
    ∃ out, renderDocxTemplate
        ⟨.valid ⟨[(docPath, sl "Name: \x7b\x7bName\x7d\x7d!")]⟩,
         [(sl "Name", sl "Asha Rao")], none⟩ = .ok out ∧
      zfile out docPath = some (sl "Name: " ++ sl "Asha Rao" ++ sl "!") ∧
      containsSub (sl "Asha Rao") (sl "Name: " ++ sl "Asha Rao" ++ sl "!") = true ∧
      containsSub (phTok (sl "Name")) (sl "Name: " ++ sl "Asha Rao" ++ sl "!") = false :=
  renderDocxTemplate_substitutes_mapped_placeholder
    (sl "Name") (sl "Asha Rao") (sl "Name: ") (sl "!") ⟨[(docPath, sl "Name: \x7b\x7bName\x7d\x7d!")]⟩
    (by decide) (by decide) (by decide) (by decide) (by decide) (by decide)
    (by decide) (by decide) (by decide)

/-- C1 counterexample: for `n = QRCode` (which matches `[A-Za-z0-9_]+`) the
claim fails: with body `ID: {{QRCode}}`, mapping `{QRCode: "hello"}` and no
QR image, the marker pre-pass consumes the token before substitution and the
`QRCode` key is overridden by `qrCodeDataUrl || ''`, so the output reads
`ID: [[QR_INLINE_IMG]]` and does not contain the value `hello`. -/
theorem renderDocxTemplate_qrcode_value_dropped :
    renderDocxTemplate
        ⟨.valid ⟨[(docPath, sl "ID: \x7b\x7bQRCode\x7d\x7d")]⟩,
         [(sl "QRCode", sl "hello")], none⟩ =
      .ok ⟨[(docPath, sl "ID: [[QR_INLINE_IMG]]")]⟩ ∧
    containsSub (sl "hello") (sl "ID: [[QR_INLINE_IMG]]") = false := by
  exact ⟨rfl, rfl⟩

/-! ## C4 -/

/-- C4 (amended): a placeholder `{{n}}` (identifier characters,
`n ≠ QRCode`) whose name is absent from the value mapping is left as
literal unresolved text and rendering succeeds, for bodies `L ++ {{n}} ++ R`
with brace-free surroundings that the repair and marker pre-passes leave
unchanged.  (For `n = QRCode` the token is not retained: counterexample.) -/
theorem renderDocxTemplate_keeps_unmapped_placeholder
    (n L R : List Char) (data : List (List Char × List Char)) (z : PizZip)
    (hn : n ≠ []) (hni : ∀ c ∈ n, isIdentChar c = true)
    (hnq : n ≠ sl "QRCode")
    (hnd : data.find? (fun q => q.1 = n) = none)
    (hLo : obr ∉ L) (hRo : obr ∉ R)
    (hbody : zfile z docPath = some (L ++ phTok n ++ R))
    (hclean : cleanupBrokenPlaceholders (L ++ phTok n ++ R) = L ++ phTok n ++ R)
    (hmark : replaceQRCodeWithMarker (L ++ phTok n ++ R) = L ++ phTok n ++ R) :
    ∃ out, renderDocxTemplate ⟨.valid z, data, none⟩ = .ok out ∧
      zfile out docPath = some (L ++ phTok n ++ R) := by
  have hlk : enrich data none n = none := by
    simp [enrich, hnq, hnd]
  have hsub : renderTags (enrich data none)
      ((L ++ phTok n ++ R).length + 1) (L ++ phTok n ++ R) =
      .ok (L ++ phTok n ++ R) := by
    rw [renderTags_plain_token _ n L R hn hni hLo hRo, hlk]
    rfl
  have htext := textSubstitutedZip_of_fixed z data none _ _ hbody hclean hmark hsub
  exact ⟨_, renderDocxTemplate_no_qr _ _ rfl htext, zfile_zset_self _ _ _⟩

theorem renderDocxTemplate_keeps_unmapped_placeholder_witness :
    ∃ out, renderDocxTemplate
        ⟨.valid ⟨[(docPath, sl "X \x7b\x7bUnknownField\x7d\x7d Y")]⟩, [], none⟩ = .ok out ∧
      zfile out docPath = some (sl "X " ++ phTok (sl "UnknownField") ++ sl " Y") :=
  renderDocxTemplate_keeps_unmapped_placeholder
    (sl "UnknownField") (sl "X ") (sl " Y") [] ⟨[(docPath, sl "X \x7b\x7bUnknownField\x7d\x7d Y")]⟩
    (by decide) (by decide) (by decide) rfl (by decide) (by decide)
    (by decide) (by decide) (by decide)

/-- C4 counterexample: the unmapped name `QRCode` is not retained: with body
`A {{QRCode}}` and an empty mapping (no `QRCode` key), rendering rewrites
the token to the internal marker instead of leaving the literal text. -/
theorem renderDocxTemplate_unmapped_qrcode_not_retained :
    renderDocxTemplate ⟨.valid ⟨[(docPath, sl "A \x7b\x7bQRCode\x7d\x7d")]⟩, [], none⟩ =
      .ok ⟨[(docPath, sl "A [[QR_INLINE_IMG]]")]⟩ ∧
    containsSub (phTok (sl "QRCode")) (sl "A [[QR_INLINE_IMG]]") = false := by
  exact ⟨rfl, rfl⟩

/-! ## Character-preservation lemmas (used for the marker invariant) -/

theorem scanRep_char {m : List Char → Option (Nat × List (List Char))}
    {rep : List (List Char) → List Char} {c : Char}
    (hrep : ∀ caps, c ∉ rep caps) :
    ∀ (f : Nat) (s : List Char), c ∉ s → c ∉ scanRep m rep f s := by
  intro f
  induction f with
  | zero => intro s hs; exact hs
  | succ f ih =>
      intro s hs
      cases s with
      | nil => exact hs
      | cons d s' =>
          have hd : c ≠ d := fun he => hs (he ▸ List.mem_cons_self d s')
          have hs' : c ∉ s' := fun hm => hs (List.mem_cons_of_mem _ hm)
          simp only [scanRep]
          cases hm : m (d :: s') with
          | none =>
              intro hmem
              rcases List.mem_cons.mp hmem with h1 | h2
              · exact hd h1
              · exact ih s' hs' h2
          | some x =>
              obtain ⟨n, caps⟩ := x
              by_cases hn : n = 0
              · subst hn
                simp only [if_pos rfl]
                intro hmem
                rcases List.mem_cons.mp hmem with h1 | h2
                · exact hd h1
                · exact ih s' hs' h2
              · simp only [if_neg hn]
                intro hmem
                rcases List.mem_append.mp hmem with h1 | h2
                · exact hrep caps h1
                · exact ih _ (fun hm => hs (List.drop_subset _ _ hm)) h2

theorem applyPat_char {pat : List RTok} {w : List Char} {c : Char}
    (hw : c ∉ w) {s : List Char} (hs : c ∉ s) :
    c ∉ applyPat pat [.lit w] s := by
  refine scanRep_char ?_ _ _ hs
  intro caps
  simp only [buildRep, List.append_nil]
  exact hw

theorem replaceFirstLit_char {p rep s : List Char} {c : Char}
    (hs : c ∉ s) (hr : c ∉ rep) : c ∉ replaceFirstLit p rep s := by
  unfold replaceFirstLit
  cases hsp : splitFirst p s with
  | none => exact hs
  | some ab =>
      obtain ⟨a, b⟩ := ab
      have hdec := splitFirst_eq_some hsp
      intro hmem
      rcases List.mem_append.mp hmem with h1 | h2
      · rcases List.mem_append.mp h1 with h3 | h4
        · exact hs (hdec ▸ List.mem_append_left _ (List.mem_append_left _ h3))
        · exact hr h4
      · exact hs (hdec ▸ List.mem_append_right _ h2)

theorem mem_takeWhile_mem {p : Char → Bool} {l : List Char} {a : Char}
    (h : a ∈ l.takeWhile p) : a ∈ l := by
  induction l with
  | nil => simp at h
  | cons c l' ih =>
      by_cases hc : p c = true
      · rw [List.takeWhile_cons_of_pos hc] at h
        rcases List.mem_cons.mp h with h1 | h2
        · exact h1 ▸ List.mem_cons_self _ _
        · exact List.mem_cons_of_mem _ (ih h2)
      · rw [List.takeWhile_cons_of_neg (by simpa using hc)] at h
        cases h

theorem renderTags_char {lk : List Char → Option (List Char)} {c : Char}
    (hlk : ∀ k r, lk k = some r → c ∉ r) (hco : c ≠ obr) (hcc : c ≠ cbr) :
    ∀ (f : Nat) (s t : List Char), renderTags lk f s = .ok t → c ∉ s → c ∉ t := by
  intro f
  induction f with
  | zero =>
      intro s t h hs
      simp only [renderTags, Except.ok.injEq] at h
      exact h ▸ hs
  | succ f ih =>
      intro s t h hs
      cases s with
      | nil =>
          simp only [renderTags, Except.ok.injEq] at h
          exact h ▸ (by simp)
      | cons d s' =>
          have hd : c ≠ d := fun he => hs (he ▸ List.mem_cons_self d s')
          have hs' : c ∉ s' := fun hm => hs (List.mem_cons_of_mem _ hm)
          simp only [renderTags] at h
          split at h
          · split at h
            · -- well-formed tag replaced or kept literal
              next hwf =>
                cases hr : renderTags lk f ((s'.tail.drop ((s'.tail.takeWhile isIdentChar).length)).drop 2) with
                | error e => rw [hr] at h; exact absurd h (by simp [Except.map])
                | ok t' =>
                    rw [hr] at h
                    have h := Except.ok.inj h
                    have htail : c ∉ s'.tail := fun hm => hs' (by
                      rw [← List.drop_one] at hm
                      exact List.drop_subset _ _ hm)
                    have hrest : c ∉ (s'.tail.drop ((s'.tail.takeWhile isIdentChar).length)).drop 2 :=
                      fun hm => htail (List.drop_subset _ _ (List.drop_subset _ _ hm))
                    have ht' : c ∉ t' := ih _ _ hr hrest
                    have hnm : c ∉ s'.tail.takeWhile isIdentChar :=
                      fun hm => htail (mem_takeWhile_mem hm)
                    rw [← h]
                    intro hmem
                    rcases List.mem_append.mp hmem with h1 | h2
                    · revert h1
                      cases hlk' : lk (s'.tail.takeWhile isIdentChar) with
                      | some v => exact fun h1 => hlk _ _ hlk' h1
                      | none =>
                          intro h1
                          rcases List.mem_append.mp h1 with h3 | h4
                          · rcases List.mem_append.mp h3 with h5 | h6
                            · exact hco (by simpa [sl, obr] using h5)
                            · exact hnm h6
                          · exact hcc (by simpa [sl, cbr] using h4)
                    · exact ht' h2
            · split at h
              · -- malformed pair: emitted literally, rescan after first brace
                cases hr : renderTags lk f s' with
                | error e => rw [hr] at h; exact absurd h (by simp [Except.map])
                | ok t' =>
                    rw [hr] at h
                    have h := Except.ok.inj h
                    rw [← h]
                    intro hmem
                    rcases List.mem_cons.mp hmem with h1 | h2
                    · exact hco h1
                    · exact ih _ _ hr hs' h2
              · exact absurd h (by simp)
          · cases hr : renderTags lk f s' with
            | error e => rw [hr] at h; exact absurd h (by simp [Except.map])
            | ok t' =>
                rw [hr] at h
                have h := Except.ok.inj h
                rw [← h]
                intro hmem
                rcases List.mem_cons.mp hmem with h1 | h2
                · exact hd h1
                · exact ih _ _ hr hs' h2

/-! ## C3 -/

theorem injectDocXml_bracket_free {docXml0 : List Char} (h : '[' ∉ docXml0) :
    '[' ∉ injectDocXml docXml0 := by
  have hdw : '[' ∉ drawingXml := by decide
  have hwd : '[' ∉ wrappedDrawing := by decide
  have hax : '[' ∉ anchorXml ++ sl "</w:body>" := by decide
  have h1 : '[' ∉ applyPat plainMarkerPat [.lit drawingXml] docXml0 := applyPat_char hdw h
  have h2 : '[' ∉ applyPat splitMarkerPat [.lit drawingXml]
      (applyPat plainMarkerPat [.lit drawingXml] docXml0) := applyPat_char hdw h1
  have h3 : '[' ∉ applyPat genericSplitMarkerPat [.lit drawingXml]
      (applyPat splitMarkerPat [.lit drawingXml]
        (applyPat plainMarkerPat [.lit drawingXml] docXml0)) := applyPat_char hdw h2
  have h4 : '[' ∉ (if containsSub qrCore (applyPat genericSplitMarkerPat [.lit drawingXml]
        (applyPat splitMarkerPat [.lit drawingXml]
          (applyPat plainMarkerPat [.lit drawingXml] docXml0))) then
      applyPat paraFallbackPat [.lit wrappedDrawing]
        (applyPat genericSplitMarkerPat [.lit drawingXml]
          (applyPat splitMarkerPat [.lit drawingXml]
            (applyPat plainMarkerPat [.lit drawingXml] docXml0)))
    else applyPat genericSplitMarkerPat [.lit drawingXml]
        (applyPat splitMarkerPat [.lit drawingXml]
          (applyPat plainMarkerPat [.lit drawingXml] docXml0))) := by
    split
    · exact applyPat_char hwd h3
    · exact h3
  show '[' ∉ (let d1 := applyPat plainMarkerPat [.lit drawingXml] docXml0
    let d2 := applyPat splitMarkerPat [.lit drawingXml] d1
    let d3 := applyPat genericSplitMarkerPat [.lit drawingXml] d2
    let d4 := if containsSub qrCore d3 then applyPat paraFallbackPat [.lit wrappedDrawing] d3 else d3
    let stillA := if containsSub qrCore d3 then containsSub qrCore d4 else false
    let still := if containsSub qrCore d4 || containsSub qrMarker d4 then true else stillA
    if still then replaceFirstLit (sl "</w:body>") (anchorXml ++ sl "</w:body>") d4 else d4)
  simp only
  have hiter : ∀ (d4 : List Char), '[' ∉ d4 → ∀ (X : Bool),
      '[' ∉ (if X = true then replaceFirstLit (sl "</w:body>") (anchorXml ++ sl "</w:body>") d4 else d4) := by
    intro d4 hd4 X
    cases X
    · simpa using hd4
    · simpa using replaceFirstLit_char hd4 hax
  exact hiter _ h4 _

theorem injectQRImage_docPath {z : PizZip} {q : List Char} {z' : PizZip}
    (h : injectQRImage z q = .ok z') :
    zfile z' docPath = zfile z docPath ∨
      (∃ b0, zfile z docPath = some b0 ∧ zfile z' docPath = some (injectDocXml b0)) := by
  unfold injectQRImage at h
  cases hdec : decodeDataUrl q with
  | none => rw [hdec] at h; exact absurd h (by simp)
  | some payload =>
      rw [hdec] at h
      dsimp only at h
      cases hrels : zfile (zset z mediaPath payload) relsPath with
      | none =>
          rw [hrels] at h
          dsimp only at h
          left
          rw [← Except.ok.inj h]
          exact zfile_zset_ne (by decide) _ _
      | some relsXml =>
          rw [hrels] at h
          dsimp only at h
          set z2 := if containsSub (sl "rIdQRCodeImage") relsXml then zset z mediaPath payload
            else zset (zset z mediaPath payload) relsPath
              (replaceFirstLit (sl "</Relationships>") (relTag ++ sl "\n</Relationships>") relsXml)
            with hz2
          have hz2doc : zfile z2 docPath = zfile z docPath := by
            rw [hz2]
            split
            · exact zfile_zset_ne (by decide) _ _
            · rw [zfile_zset_ne (by decide) _ _, zfile_zset_ne (by decide) _ _]
          cases hdoc : zfile z2 docPath with
          | none =>
              rw [hdoc] at h
              dsimp only at h
              left
              rw [← Except.ok.inj h]
              exact hz2doc
          | some d0 =>
              rw [hdoc] at h
              dsimp only at h
              right
              refine ⟨d0, by rw [← hz2doc]; exact hdoc, ?_⟩
              rw [← Except.ok.inj h]
              exact zfile_zset_self _ _ _

/-- C3 (amended): provided the repaired body contains no `[` character and no
`{{QRCode}}` placeholder (the marker pre-pass leaves it unchanged), and the
mapping values and QR payload contain no `[`, the literal internal marker
`[[QR_INLINE_IMG]]` never appears in the rendered body — with or without a
QR image.  (Without this proviso the claim fails: a body containing
`{{QRCode}}` rendered with no QR image keeps the marker; counterexample.) -/
theorem renderDocxTemplate_marker_absent
    (ctx : RenderContext) (z : PizZip) (body : List Char)
    (hz : ctx.templateArrayBuffer = .valid z)
    (hbody : zfile z docPath = some body)
    (hclean : cleanupBrokenPlaceholders body = body)
    (hmark : replaceQRCodeWithMarker body = body)
    (hbr : '[' ∉ body)
    (hdata : ∀ p ∈ ctx.data, '[' ∉ p.2)
    (hqr : ∀ q, ctx.qrCodeDataUrl = some q → '[' ∉ q)
    (out : PizZip) (hout : renderDocxTemplate ctx = .ok out)
    (bodyOut : List Char) (hbo : zfile out docPath = some bodyOut) :
    containsSub qrMarker bodyOut = false := by
  obtain ⟨tb, data, qr⟩ := ctx
  simp only at hz hdata hqr
  subst hz
  have hlk : ∀ k r, enrich data qr k = some r → '[' ∉ r := by
    intro k r hkr
    unfold enrich at hkr
    split at hkr
    · cases qr with
      | none => cases hkr; simp
      | some q =>
          cases hkr
          exact hqr q rfl
    · cases hf : data.find? (fun x => x.1 = k) with
      | none => rw [hf] at hkr; cases hkr
      | some pr =>
          rw [hf] at hkr
          cases hkr
          exact hdata pr (List.mem_of_find?_eq_some hf)
  have hmarkerBr : '[' ∈ qrMarker := by decide
  unfold renderDocxTemplate at hout
  cases ht : textSubstitutedZip ⟨.valid z, data, qr⟩ with
  | error e => rw [ht] at hout; exact absurd hout (by simp)
  | ok zip3 =>
      rw [ht] at hout
      simp only [textSubstitutedZip, pizzipLoad, hbody, hclean, zfile_zset_self, hmark] at ht
      cases hrt : renderTags (enrich data qr) (body.length + 1) body with
      | error e0 => rw [hrt] at ht; exact absurd ht (by simp)
      | ok body2 =>
          rw [hrt] at ht
          have hzip3 := Except.ok.inj ht
          have hb2 : '[' ∉ body2 :=
            renderTags_char hlk (by decide) (by decide) _ _ _ hrt hbr
          have hzip3doc : zfile zip3 docPath = some body2 := by
            rw [← hzip3]
            exact zfile_zset_self _ _ _
          have hfinish : ∀ b', zfile zip3 docPath = some b' → b' = body2 := by
            intro b' hb'
            rw [hzip3doc] at hb'
            exact (Option.some.inj hb').symm
          cases qr with
          | none =>
              simp only at hout
              have hoz := Except.ok.inj hout
              rw [← hoz] at hbo
              have := hfinish _ hbo
              subst this
              exact containsSub_false_of_char hmarkerBr hb2
          | some q =>
              simp only at hout
              by_cases hsw : (stripPre (sl "data:image") q).isSome
              · rw [if_pos hsw] at hout
                cases hinj : injectQRImage zip3 q with
                | error u =>
                    rw [hinj] at hout
                    have hoz := Except.ok.inj hout
                    rw [← hoz] at hbo
                    have := hfinish _ hbo
                    subst this
                    exact containsSub_false_of_char hmarkerBr hb2
                | ok z4 =>
                    rw [hinj] at hout
                    have hoz := Except.ok.inj hout
                    rw [← hoz] at hbo
                    rcases injectQRImage_docPath hinj with hsame | ⟨b0, hb0, hb0'⟩
                    · rw [hsame, hzip3doc] at hbo
                      have hb' := (Option.some.inj hbo).symm
                      subst hb'
                      exact containsSub_false_of_char hmarkerBr hb2
                    · rw [hzip3doc] at hb0
                      have hb0eq := (Option.some.inj hb0).symm
                      subst hb0eq
                      rw [hb0'] at hbo
                      have hbeq := (Option.some.inj hbo).symm
                      subst hbeq
                      exact containsSub_false_of_char hmarkerBr
                        (injectDocXml_bracket_free hb2)
              · rw [if_neg hsw] at hout
                have hoz := Except.ok.inj hout
                rw [← hoz] at hbo
                have := hfinish _ hbo
                subst this
                exact containsSub_false_of_char hmarkerBr hb2

theorem renderDocxTemplate_marker_absent_witness :
    ∃ bodyOut, zfile (⟨[(docPath, sl "Hello")]⟩ : PizZip) docPath = some (sl "Hello") ∧
      renderDocxTemplate ⟨.valid ⟨[(docPath, sl "Hello")]⟩, [], none⟩ =
        .ok ⟨[(docPath, sl "Hello")]⟩ ∧
      zfile (⟨[(docPath, sl "Hello")]⟩ : PizZip) docPath = some bodyOut ∧
      containsSub qrMarker bodyOut = false :=
  ⟨sl "Hello", rfl, rfl,
    rfl,
    renderDocxTemplate_marker_absent ⟨.valid ⟨[(docPath, sl "Hello")]⟩, [], none⟩
      ⟨[(docPath, sl "Hello")]⟩ (sl "Hello") rfl rfl (by decide) (by decide)
      (by decide) (by simp) (by simp) _ rfl _ rfl⟩

/-- C3 counterexample: the marker does appear in final output when the body
contains `{{QRCode}}` and no QR image is supplied — the token is rewritten
to `[[QR_INLINE_IMG]]` and nothing removes it. -/
theorem renderDocxTemplate_marker_left_in_output :
    renderDocxTemplate ⟨.valid ⟨[(docPath, sl "See \x7b\x7bQRCode\x7d\x7d here")]⟩, [], none⟩ =
      .ok ⟨[(docPath, sl "See [[QR_INLINE_IMG]] here")]⟩ ∧
    containsSub qrMarker (sl "See [[QR_INLINE_IMG]] here") = true := ⟨rfl, rfl⟩

/-! ## Single-token replacement lemmas (marker pre-pass and QR injection) -/

theorem applyPat_single_token (n : Nat) {pat : List RTok} {rp : List RPiece} {a : Char}
    {cs : List Char} {ts : List RTok} (hp : pat = .lit (a :: cs) :: ts)
    {t w : List Char}
    (htok : ∀ R, rxm pat (a :: (t ++ R)) = some (n, []))
    (hn0 : n ≠ 0)
    (hdrop : ∀ R : List Char, (a :: (t ++ R)).drop n = R)
    (hw : buildRep rp [] = w)
    {L R : List Char} (hL : a ∉ L) (hR : a ∉ R) :
    applyPat pat rp (L ++ (a :: t) ++ R) = L ++ w ++ R := by
  unfold applyPat
  rw [List.append_assoc]
  have hlen : (L ++ ((a :: t) ++ R)).length + 1 = L.length + (((a :: t) ++ R).length + 1) := by
    simp only [List.length_append]; omega
  rw [hlen]
  have hpre : ∀ u, u ≠ [] → u <:+ L → rxm pat (u ++ ((a :: t) ++ R)) = none := by
    intro u hu hsuf
    cases u with
    | nil => exact absurd rfl hu
    | cons d u' =>
        have hd : d ∈ L := hsuf.subset (List.mem_cons_self d u')
        rw [hp, List.cons_append]
        exact rxm_lit_cons_ne (fun he => hL (by rw [he]; exact hd))
  rw [scanRep_append hpre (((a :: t) ++ R).length + 1)]
  rw [List.cons_append]
  rw [scanRep_cons_match (htok R) hn0 _]
  rw [hw, hdrop R]
  have hnom : ∀ u, u ≠ [] → u <:+ R → rxm pat u = none := by
    intro u hu hsuf
    exact hp ▸ rxm_head_none hR hu hsuf
  rw [scanRep_nomatch hnom _, List.append_assoc]

/-- The marker pre-pass on a body consisting of a contiguous `{{QRCode}}`
between brace-free surroundings rewrites exactly that token to the marker. -/
theorem markerReplace_token (L R : List Char) (hLo : obr ∉ L) (hRo : obr ∉ R) :
    replaceQRCodeWithMarker (L ++ phTok (sl "QRCode") ++ R) = L ++ qrMarker ++ R := by
  have hshape : phTok (sl "QRCode") = obr :: (obr :: (sl "QRCode" ++ [cbr, cbr])) := rfl
  rw [hshape]
  refine applyPat_single_token 10 rfl ?_ (by decide) ?_ (by simp [buildRep]) hLo hRo
  · exact fun R => rfl
  · exact fun R => rfl

/-- The first marker replacement (line 181) on a body consisting of the
plain marker between bracket-free surroundings inserts the drawing XML. -/
theorem plainMarker_token (L R : List Char) (hL : '[' ∉ L) (hR : '[' ∉ R) :
    applyPat plainMarkerPat [.lit drawingXml] (L ++ qrMarker ++ R) =
      L ++ drawingXml ++ R := by
  have hshape : qrMarker = '[' :: ('[' :: sl "QR_INLINE_IMG" ++ [']', ']']) := rfl
  rw [hshape]
  refine applyPat_single_token 17 rfl ?_ (by decide) ?_ (by simp [buildRep]) hL hR
  · exact fun R => rfl
  · exact fun R => rfl

/-- When the body contains no `[` and no bare `QR_INLINE_IMG` text, the
whole marker-replacement chain is a no-op. -/
theorem injectDocXml_no_marker {b : List Char} (hB : '[' ∉ b)
    (hC : containsSub qrCore b = false) : injectDocXml b = b := by
  have h1 : applyPat plainMarkerPat [.lit drawingXml] b = b := applyPat_free rfl hB
  have h2 : applyPat splitMarkerPat [.lit drawingXml] b = b := applyPat_free rfl hB
  have h3 : applyPat genericSplitMarkerPat [.lit drawingXml] b = b := applyPat_free rfl hB
  have hMk : containsSub qrMarker b = false := containsSub_false_of_char (by decide) hB
  simp [injectDocXml, h1, h2, h3, hC, hMk]

theorem injectQRImage_full {z3 : PizZip} {q payload relsXml : List Char}
    (hdec : decodeDataUrl q = some payload)
    (hrels : zfile (zset z3 mediaPath payload) relsPath = some relsXml)
    (hrid : containsSub (sl "rIdQRCodeImage") relsXml = false)
    {docXml0 : List Char}
    (hdoc : zfile (zset (zset z3 mediaPath payload) relsPath
        (replaceFirstLit (sl "</Relationships>") (relTag ++ sl "\n</Relationships>") relsXml))
        docPath = some docXml0) :
    injectQRImage z3 q = .ok (zset (zset (zset z3 mediaPath payload) relsPath
        (replaceFirstLit (sl "</Relationships>") (relTag ++ sl "\n</Relationships>") relsXml))
      docPath (injectDocXml docXml0)) := by
  unfold injectQRImage
  rw [hdec]
  dsimp only
  rw [hrels]
  dsimp only
  rw [hrid]
  simp only [Bool.false_eq_true, if_false]
  rw [hdoc]

theorem textSubstitutedZip_steps (z : PizZip) (data : List (List Char × List Char))
    (qr : Option (List Char)) (body body1 body2 : List Char)
    (hbody : zfile z docPath = some body)
    (hclean : cleanupBrokenPlaceholders body = body)
    (hmark : replaceQRCodeWithMarker body = body1)
    (hsub : renderTags (enrich data qr) (body1.length + 1) body1 = .ok body2) :
    textSubstitutedZip ⟨.valid z, data, qr⟩ =
      .ok (zset (zset (zset z docPath body) docPath body1) docPath body2) := by
  simp only [textSubstitutedZip, pizzipLoad, hbody, hclean, zfile_zset_self, hmark, hsub]

theorem replaceFirstLit_of_split {p s a b : List Char} (rep : List Char)
    (h : splitFirst p s = some (a, b)) :
    replaceFirstLit p rep s = a ++ rep ++ b := by
  unfold replaceFirstLit
  rw [h]

/-! ## C2 -/

/-- C2 (amended): for a template whose body contains no `{{QRCode}}`
placeholder (here: a brace-free, bracket-free body without bare marker text)
and a supplied decodable `data:image` QR payload, the renderer adds the
media asset and the relationship entry but inserts NO page-anchored image:
the body part of the output is byte-identical to the input body.  The
page-anchored fallback of lines 211-247 fires only when unresolved marker
text remains in the body, which never happens without a `{{QRCode}}`
placeholder.  (The claim as stated is refuted by the counterexample.) -/
theorem renderDocxTemplate_qr_without_placeholder
    (body relsXml pre post payload q : List Char)
    (data : List (List Char × List Char)) (z : PizZip)
    (hbodyF : obr ∉ body) (hbodyB : '[' ∉ body)
    (hcore : containsSub qrCore body = false)
    (hzb : zfile z docPath = some body)
    (hzr : zfile z relsPath = some relsXml)
    (hsplit : splitFirst (sl "</Relationships>") relsXml = some (pre, post))
    (hrid : containsSub (sl "rIdQRCodeImage") relsXml = false)
    (hzm : zfile z mediaPath = none)
    (hsw : (stripPre (sl "data:image") q).isSome)
    (hdec : decodeDataUrl q = some payload) :
    ∃ out, renderDocxTemplate ⟨.valid z, data, some q⟩ = .ok out ∧
      zfile out docPath = some body ∧
      zfile out mediaPath = some payload ∧
      zfile out relsPath = some (pre ++ (relTag ++ sl "\n</Relationships>") ++ post) ∧
      out.files.length = z.files.length + 1 := by
  have hsub : renderTags (enrich data (some q)) (body.length + 1) body = .ok body :=
    renderTags_free hbodyF _
  have htext := textSubstitutedZip_of_fixed z data (some q) body body hzb
    (cleanup_free_id hbodyF) (marker_free_id hbodyF) hsub
  have h3doc : zfile (zset (zset (zset z docPath body) docPath body) docPath body) docPath
      = some body := zfile_zset_self _ _ _
  have h3rels : zfile (zset (zset (zset z docPath body) docPath body) docPath body) relsPath
      = some relsXml := by
    rw [zfile_zset_ne (by decide) _ _, zfile_zset_ne (by decide) _ _,
      zfile_zset_ne (by decide) _ _]
    exact hzr
  have h3med : zfile (zset (zset (zset z docPath body) docPath body) docPath body) mediaPath
      = none := by
    rw [zfile_zset_ne (by decide) _ _, zfile_zset_ne (by decide) _ _,
      zfile_zset_ne (by decide) _ _]
    exact hzm
  have hrels1 : zfile (zset (zset (zset (zset z docPath body) docPath body) docPath body)
      mediaPath payload) relsPath = some relsXml := by
    rw [zfile_zset_ne (by decide) _ _]
    exact h3rels
  have hdoc2 : zfile (zset (zset (zset (zset (zset z docPath body) docPath body) docPath body)
      mediaPath payload) relsPath
        (replaceFirstLit (sl "</Relationships>") (relTag ++ sl "\n</Relationships>") relsXml))
      docPath = some body := by
    rw [zfile_zset_ne (by decide) _ _, zfile_zset_ne (by decide) _ _]
    exact h3doc
  have hinj := injectQRImage_full hdec hrels1 hrid hdoc2
  rw [injectDocXml_no_marker hbodyB hcore] at hinj
  have hrender : renderDocxTemplate ⟨.valid z, data, some q⟩ =
      .ok (zset (zset (zset (zset (zset (zset z docPath body) docPath body) docPath body)
        mediaPath payload) relsPath
          (replaceFirstLit (sl "</Relationships>") (relTag ++ sl "\n</Relationships>") relsXml))
        docPath body) := by
    unfold renderDocxTemplate
    rw [htext]
    dsimp only
    rw [hsw]
    simp only [if_true]
    rw [hinj]
  refine ⟨_, hrender, zfile_zset_self _ _ _, ?_, ?_, ?_⟩
  · rw [zfile_zset_ne (by decide) _ _, zfile_zset_ne (by decide) _ _]
    exact zfile_zset_self _ _ _
  · rw [zfile_zset_ne (by decide) _ _, zfile_zset_self _ _ _,
      replaceFirstLit_of_split _ hsplit]
  · rw [zset_length_present (by rw [hdoc2]; simp) _,
      zset_length_present (by rw [hrels1]; simp) _,
      zset_length_absent h3med _,
      zset_length_present (by rw [zfile_zset_self]; simp) _,
      zset_length_present (by rw [zfile_zset_self]; simp) _,
      zset_length_present (by rw [hzb]; simp) _]

theorem renderDocxTemplate_qr_without_placeholder_witness :
    ∃ out, renderDocxTemplate
        ⟨.valid ⟨[(docPath, sl "<w:body><w:p>Hi</w:p></w:body>"),
                  (relsPath, sl "<Relationships></Relationships>")]⟩,
         [], some (sl "data:image/png;base64,QUJD")⟩ = .ok out ∧
      zfile out docPath = some (sl "<w:body><w:p>Hi</w:p></w:body>") ∧
      zfile out mediaPath = some (sl "QUJD") ∧
      zfile out relsPath =
        some (sl "<Relationships>" ++ (relTag ++ sl "\n</Relationships>") ++ sl "") ∧
      out.files.length =
        (⟨[(docPath, sl "<w:body><w:p>Hi</w:p></w:body>"),
           (relsPath, sl "<Relationships></Relationships>")]⟩ : PizZip).files.length + 1 :=
  renderDocxTemplate_qr_without_placeholder
    (sl "<w:body><w:p>Hi</w:p></w:body>") (sl "<Relationships></Relationships>")
    (sl "<Relationships>") (sl "") (sl "QUJD") (sl "data:image/png;base64,QUJD") []
    ⟨[(docPath, sl "<w:body><w:p>Hi</w:p></w:body>"),
      (relsPath, sl "<Relationships></Relationships>")]⟩
    (by decide) (by decide) (by decide) (by decide) (by decide) (by decide)
    (by decide) (by decide) (by decide) (by decide)

/-- C2 counterexample: with a QR payload supplied and no `{{QRCode}}`
placeholder anywhere, the output contains NO page-anchored image: the body
part is unchanged and contains no `<wp:anchor` element (the claim asserts a
page-anchored image is inserted before the end of the body). -/
theorem renderDocxTemplate_no_anchor_without_placeholder :
    (∃ out, renderDocxTemplate
        ⟨.valid ⟨[(docPath, sl "<w:body><w:p>Text</w:p></w:body>"),
                  (relsPath, sl "<Relationships></Relationships>")]⟩,
         [], some (sl "data:image/png;base64,QUJD")⟩ = .ok out ∧
      zfile out docPath = some (sl "<w:body><w:p>Text</w:p></w:body>")) ∧
    containsSub (sl "<wp:anchor") (sl "<w:body><w:p>Text</w:p></w:body>") = false := by
  constructor
  · refine ⟨_, rfl, ?_⟩
    rfl
  · rfl

/-! ## C5 -/

theorem injectDocXml_resolved {b d : List Char}
    (h1 : applyPat plainMarkerPat [.lit drawingXml] b = d)
    (h2 : applyPat splitMarkerPat [.lit drawingXml] d = d)
    (h3 : applyPat genericSplitMarkerPat [.lit drawingXml] d = d)
    (hC : containsSub qrCore d = false)
    (hMk : containsSub qrMarker d = false) :
    injectDocXml b = d := by
  unfold injectDocXml
  simp only [h1, h2, h3, hC, hMk, Bool.false_eq_true, if_false, Bool.or_self]

theorem injectDocXml_single_marker (L R : List Char) (hL : '[' ∉ L) (hR : '[' ∉ R)
    (hcore : containsSub qrCore (L ++ drawingXml ++ R) = false) :
    injectDocXml (L ++ qrMarker ++ R) = L ++ drawingXml ++ R := by
  have h1 := plainMarker_token L R hL hR
  have hD : '[' ∉ drawingXml := by decide
  have hLDR : '[' ∉ L ++ drawingXml ++ R := by
    intro hm
    rcases List.mem_append.mp hm with h | h
    · rcases List.mem_append.mp h with h | h
      · exact hL h
      · exact hD h
    · exact hR h
  have h2 : applyPat splitMarkerPat [.lit drawingXml] (L ++ drawingXml ++ R) =
      L ++ drawingXml ++ R := applyPat_free rfl hLDR
  have h3 : applyPat genericSplitMarkerPat [.lit drawingXml] (L ++ drawingXml ++ R) =
      L ++ drawingXml ++ R := applyPat_free rfl hLDR
  have hMk : containsSub qrMarker (L ++ drawingXml ++ R) = false :=
    containsSub_false_of_char (by decide) hLDR
  exact injectDocXml_resolved h1 h2 h3 hcore hMk

/-- C5: a template whose body is a contiguous `{{QRCode}}` placeholder
between brace- and bracket-free surroundings, rendered with a decodable
`data:image` payload, yields an archive with exactly one new media asset
`word/media/qrcode.png`, exactly one new relationship entry (inserted before
`</Relationships>`; the id was absent before), and a body in which the
placeholder was replaced by the inline drawing — no literal `{{QRCode}}`
and no internal marker text remain. -/
theorem renderDocxTemplate_qrcode_injection
    (L R relsXml pre post payload q : List Char)
    (data : List (List Char × List Char)) (z : PizZip)
    (hLo : obr ∉ L) (hRo : obr ∉ R) (hLb : '[' ∉ L) (hRb : '[' ∉ R)
    (hclean : cleanupBrokenPlaceholders (L ++ phTok (sl "QRCode") ++ R) =
      L ++ phTok (sl "QRCode") ++ R)
    (hzb : zfile z docPath = some (L ++ phTok (sl "QRCode") ++ R))
    (hzr : zfile z relsPath = some relsXml)
    (hsplit : splitFirst (sl "</Relationships>") relsXml = some (pre, post))
    (hrid : containsSub (sl "rIdQRCodeImage") relsXml = false)
    (hzm : zfile z mediaPath = none)
    (hsw : (stripPre (sl "data:image") q).isSome)
    (hdec : decodeDataUrl q = some payload)
    (hcore : containsSub qrCore (L ++ drawingXml ++ R) = false) :
    ∃ out, renderDocxTemplate ⟨.valid z, data, some q⟩ = .ok out ∧
      zfile out docPath = some (L ++ drawingXml ++ R) ∧
      containsSub (phTok (sl "QRCode")) (L ++ drawingXml ++ R) = false ∧
      containsSub qrMarker (L ++ drawingXml ++ R) = false ∧
      zfile out mediaPath = some payload ∧
      zfile out relsPath = some (pre ++ (relTag ++ sl "\n</Relationships>") ++ post) ∧
      out.files.length = z.files.length + 1 := by
  have hDo : obr ∉ drawingXml := by decide
  have hDb : '[' ∉ drawingXml := by decide
  have hmark := markerReplace_token L R hLo hRo
  have hb1o : obr ∉ L ++ qrMarker ++ R := by
    intro hm
    rcases List.mem_append.mp hm with h | h
    · rcases List.mem_append.mp h with h | h
      · exact hLo h
      · exact absurd h (by decide)
    · exact hRo h
  have hsub : renderTags (enrich data (some q)) ((L ++ qrMarker ++ R).length + 1)
      (L ++ qrMarker ++ R) = .ok (L ++ qrMarker ++ R) := renderTags_free hb1o _
  have htext := textSubstitutedZip_steps z data (some q) _ _ _ hzb hclean hmark hsub
  have h3doc : zfile (zset (zset (zset z docPath (L ++ phTok (sl "QRCode") ++ R))
      docPath (L ++ qrMarker ++ R)) docPath (L ++ qrMarker ++ R)) docPath
      = some (L ++ qrMarker ++ R) := zfile_zset_self _ _ _
  have h3rels : zfile (zset (zset (zset z docPath (L ++ phTok (sl "QRCode") ++ R))
      docPath (L ++ qrMarker ++ R)) docPath (L ++ qrMarker ++ R)) relsPath = some relsXml := by
    rw [zfile_zset_ne (by decide) _ _, zfile_zset_ne (by decide) _ _,
      zfile_zset_ne (by decide) _ _]
    exact hzr
  have h3med : zfile (zset (zset (zset z docPath (L ++ phTok (sl "QRCode") ++ R))
      docPath (L ++ qrMarker ++ R)) docPath (L ++ qrMarker ++ R)) mediaPath = none := by
    rw [zfile_zset_ne (by decide) _ _, zfile_zset_ne (by decide) _ _,
      zfile_zset_ne (by decide) _ _]
    exact hzm
  have hrels1 : zfile (zset (zset (zset (zset z docPath (L ++ phTok (sl "QRCode") ++ R))
      docPath (L ++ qrMarker ++ R)) docPath (L ++ qrMarker ++ R)) mediaPath payload)
      relsPath = some relsXml := by
    rw [zfile_zset_ne (by decide) _ _]
    exact h3rels
  have hdoc2 : zfile (zset (zset (zset (zset (zset z docPath (L ++ phTok (sl "QRCode") ++ R))
      docPath (L ++ qrMarker ++ R)) docPath (L ++ qrMarker ++ R)) mediaPath payload)
      relsPath (replaceFirstLit (sl "</Relationships>") (relTag ++ sl "\n</Relationships>")
        relsXml)) docPath = some (L ++ qrMarker ++ R) := by
    rw [zfile_zset_ne (by decide) _ _, zfile_zset_ne (by decide) _ _]
    exact h3doc
  have hinj := injectQRImage_full hdec hrels1 hrid hdoc2
  rw [injectDocXml_single_marker L R hLb hRb hcore] at hinj
  have hrender : renderDocxTemplate ⟨.valid z, data, some q⟩ =
      .ok (zset (zset (zset (zset (zset (zset z docPath (L ++ phTok (sl "QRCode") ++ R))
        docPath (L ++ qrMarker ++ R)) docPath (L ++ qrMarker ++ R)) mediaPath payload)
        relsPath (replaceFirstLit (sl "</Relationships>") (relTag ++ sl "\n</Relationships>")
          relsXml)) docPath (L ++ drawingXml ++ R)) := by
    unfold renderDocxTemplate
    rw [htext]
    dsimp only
    rw [hsw]
    simp only [if_true]
    rw [hinj]
  refine ⟨_, hrender, zfile_zset_self _ _ _, ?_, ?_, ?_, ?_, ?_⟩
  · refine containsSub_false_of_char (List.mem_cons_self obr _) ?_
    intro hm
    rcases List.mem_append.mp hm with h | h
    · rcases List.mem_append.mp h with h | h
      · exact hLo h
      · exact hDo h
    · exact hRo h
  · refine containsSub_false_of_char (show '[' ∈ qrMarker by decide) ?_
    intro hm
    rcases List.mem_append.mp hm with h | h
    · rcases List.mem_append.mp h with h | h
      · exact hLb h
      · exact hDb h
    · exact hRb h
  · rw [zfile_zset_ne (by decide) _ _, zfile_zset_ne (by decide) _ _]
    exact zfile_zset_self _ _ _
  · rw [zfile_zset_ne (by decide) _ _, zfile_zset_self _ _ _,
      replaceFirstLit_of_split _ hsplit]
  · rw [zset_length_present (by rw [hdoc2]; simp) _,
      zset_length_present (by rw [hrels1]; simp) _,
      zset_length_absent h3med _,
      zset_length_present (by rw [zfile_zset_self]; simp) _,
      zset_length_present (by rw [zfile_zset_self]; simp) _,
      zset_length_present (by rw [hzb]; simp) _]

theorem renderDocxTemplate_qrcode_injection_witness :
    ∃ out, renderDocxTemplate
        ⟨.valid ⟨[(docPath, sl "<w:p><w:r><w:t>" ++ phTok (sl "QRCode") ++ sl "</w:t></w:r></w:p>"),
                  (relsPath, sl "<Relationships></Relationships>")]⟩,
         [], some (sl "data:image/png;base64,QUJD")⟩ = .ok out ∧
      zfile out docPath = some (sl "<w:p><w:r><w:t>" ++ drawingXml ++ sl "</w:t></w:r></w:p>") ∧
      containsSub (phTok (sl "QRCode"))
        (sl "<w:p><w:r><w:t>" ++ drawingXml ++ sl "</w:t></w:r></w:p>") = false ∧
      containsSub qrMarker
        (sl "<w:p><w:r><w:t>" ++ drawingXml ++ sl "</w:t></w:r></w:p>") = false ∧
      zfile out mediaPath = some (sl "QUJD") ∧
      zfile out relsPath =
        some (sl "<Relationships>" ++ (relTag ++ sl "\n</Relationships>") ++ sl "") ∧
      out.files.length =
        (⟨[(docPath, sl "<w:p><w:r><w:t>" ++ phTok (sl "QRCode") ++ sl "</w:t></w:r></w:p>"),
           (relsPath, sl "<Relationships></Relationships>")]⟩ : PizZip).files.length + 1 :=
  renderDocxTemplate_qrcode_injection
    (sl "<w:p><w:r><w:t>") (sl "</w:t></w:r></w:p>")
    (sl "<Relationships></Relationships>") (sl "<Relationships>") (sl "")
    (sl "QUJD") (sl "data:image/png;base64,QUJD") []
    ⟨[(docPath, sl "<w:p><w:r><w:t>" ++ phTok (sl "QRCode") ++ sl "</w:t></w:r></w:p>"),
      (relsPath, sl "<Relationships></Relationships>")]⟩
    (by decide) (by decide) (by decide) (by decide) (by decide) (by decide)
    (by decide) (by decide) (by decide) (by decide) (by decide) (by decide)
    (by decide)
